import Mathlib

/-!
Formal model of the SSRF-protection subsystem of the zenbin repository
(`src/utils/ssrf.ts` / `src/routes/proxy.ts`): the private-address
classifier `isPrivateIP`, the target resolver `resolveAndValidate`, and
the relay executor's redirect/streaming loop.  Strings are modelled as
`List Char` internally; JavaScript `Number(...)`, `parseInt(...)`,
`split`, `padStart`, `slice` and template-string semantics are embedded
explicitly.  Exceptions thrown by the JavaScript code are modelled with
`Except String` / `Option`.
-/

namespace ZenBin

instance {ε α : Type} [DecidableEq ε] [DecidableEq α] : DecidableEq (Except ε α) := fun
  | .ok a, .ok b => decidable_of_iff (a = b) (by simp)
  | .ok _, .error _ => isFalse (by simp)
  | .error _, .ok _ => isFalse (by simp)
  | .error a, .error b => decidable_of_iff (a = b) (by simp)

/-! ## Character and list utilities mirroring JS string primitives -/

def isDigitCh (c : Char) : Bool := 48 ≤ c.toNat && c.toNat ≤ 57

def digitVal (c : Char) : Nat := c.toNat - 48

def isHexCh (c : Char) : Bool :=
  isDigitCh c || (97 ≤ c.toNat && c.toNat ≤ 102) || (65 ≤ c.toNat && c.toNat ≤ 70)

def hexVal (c : Char) : Nat :=
  if isDigitCh c then digitVal c
  else if 97 ≤ c.toNat && c.toNat ≤ 102 then c.toNat - 97 + 10
  else c.toNat - 65 + 10

def isOctCh (c : Char) : Bool := 48 ≤ c.toNat && c.toNat ≤ 55

def isBinCh (c : Char) : Bool := c = '0' || c = '1'

def digitsToNat (l : List Char) : Nat := l.foldl (fun a c => 10 * a + digitVal c) 0

def hexToNat (l : List Char) : Nat := l.foldl (fun a c => 16 * a + hexVal c) 0

def octToNat (l : List Char) : Nat := l.foldl (fun a c => 8 * a + digitVal c) 0

def binToNat (l : List Char) : Nat := l.foldl (fun a c => 2 * a + digitVal c) 0

/-- ASCII lower-casing of a character (models `String.prototype.toLowerCase`
on the ASCII inputs this code handles). -/
def lowerCh (c : Char) : Char :=
  if 65 ≤ c.toNat && c.toNat ≤ 90 then Char.ofNat (c.toNat + 32) else c

def upperCh (c : Char) : Char :=
  if 97 ≤ c.toNat && c.toNat ≤ 122 then Char.ofNat (c.toNat - 32) else c

def lowerStr (s : String) : String := ⟨s.data.map lowerCh⟩

def upperStr (s : String) : String := ⟨s.data.map upperCh⟩

/-- `pat` is an initial segment of `l`. -/
def leadsWith : List Char → List Char → Bool
  | [], _ => true
  | _ :: _, [] => false
  | p :: ps, c :: cs => p = c && leadsWith ps cs

/-- Models `String.prototype.includes` (substring search). -/
def containsSubL (l pat : List Char) : Bool :=
  match l with
  | [] => leadsWith pat []
  | _ :: cs => leadsWith pat l || containsSubL cs pat

def containsSubStr (s sub : String) : Bool := containsSubL s.data sub.data

/-- `s.split(sep)` for a single-character separator, JS semantics
(`"".split(".") = [""]`, empty pieces preserved). -/
def splitCh (sep : Char) : List Char → List (List Char)
  | [] => [[]]
  | c :: cs =>
    match splitCh sep cs with
    | [] => [[c]]
    | h :: t => if c = sep then [] :: h :: t else (c :: h) :: t

/-- `s.split("::")`: split on each non-overlapping, leftmost-first
occurrence of a double colon. -/
def splitDC : List Char → List (List Char)
  | [] => [[]]
  | [c] => [[c]]
  | c :: d :: rest =>
    if c = ':' && d = ':' then [] :: splitDC rest
    else
      match splitDC (d :: rest) with
      | [] => [[c]]
      | h :: t => (c :: h) :: t

/-- `s.includes("::")`. -/
def hasDC : List Char → Bool
  | [] => false
  | [_] => false
  | c :: d :: rest => (c = ':' && d = ':') || hasDC (d :: rest)

/-- `array.join(":")`. -/
def joinC : List (List Char) → List Char
  | [] => []
  | [x] => x
  | x :: xs => x ++ ':' :: joinC xs

/-- `s.padStart(4, "0")`. -/
def padStart4 (l : List Char) : List Char :=
  if 4 ≤ l.length then l else List.replicate (4 - l.length) '0' ++ l

/-- `s.slice(-n)` (the last `n` characters; the whole string if shorter). -/
def takeLast (n : Nat) (l : List Char) : List Char := l.drop (l.length - n)

/-! ## JavaScript number semantics

`Number(string)` is modelled exactly on the ECMAScript
StringNumericLiteral grammar (whitespace trimming, the empty string,
signed decimal literals with fraction / exponent, `Infinity`, and the
`0x` / `0o` / `0b` prefixed forms).  `NaN` is `none`; every finite value
of the grammar is a decimal-scaled integer and is represented exactly as
`.dec m e`, denoting `m · 10^e` (the double rounding of the engine is
not modelled; it is exact on every literal these proofs evaluate). -/

inductive JsVal where
  | dec (m : ℤ) (e : ℤ)
  | posInf
  | negInf
deriving DecidableEq, Repr

/-- ECMAScript WhiteSpace / LineTerminator characters (ASCII ones plus
NBSP and the BOM). -/
def isJsSpace (c : Char) : Bool :=
  c.toNat = 32 || c.toNat = 9 || c.toNat = 10 || c.toNat = 13 ||
  c.toNat = 11 || c.toNat = 12 || c.toNat = 0xa0 || c.toNat = 0xfeff

def trimJs (l : List Char) : List Char :=
  ((l.dropWhile isJsSpace).reverse.dropWhile isJsSpace).reverse

/-- Exponent part after the `e`/`E`: optional sign then one or more digits,
consuming the entire remainder. -/
def decExpPart (l : List Char) : Option ℤ :=
  match l with
  | '+' :: r => if r ≠ [] && r.all isDigitCh then some (digitsToNat r) else none
  | '-' :: r => if r ≠ [] && r.all isDigitCh then some (-(digitsToNat r : ℤ)) else none
  | r => if r ≠ [] && r.all isDigitCh then some (digitsToNat r) else none

/-- StrUnsignedDecimalLiteral without the `Infinity` case:
`digits [ "." digits? ] [ exponent ]` or `"." digits [ exponent ]`.
The result is the exact value `mantissa · 10^exponent`
(`d1.d2 e k  =  (d1·10^|d2| + d2) · 10^(k - |d2|)`). -/
def decLit (l : List Char) : Option (ℤ × ℤ) :=
  let d1 := l.takeWhile isDigitCh
  let r1 := l.dropWhile isDigitCh
  match r1 with
  | [] => if d1 = [] then none else some ((digitsToNat d1 : ℤ), 0)
  | '.' :: r2 =>
    let d2 := r2.takeWhile isDigitCh
    let r3 := r2.dropWhile isDigitCh
    if d1 = [] && d2 = [] then none
    else
      let m : ℤ := (digitsToNat d1 : ℤ) * 10 ^ d2.length + (digitsToNat d2 : ℤ)
      match r3 with
      | [] => some (m, -(d2.length : ℤ))
      | 'e' :: re => (decExpPart re).map (fun e => (m, e - (d2.length : ℤ)))
      | 'E' :: re => (decExpPart re).map (fun e => (m, e - (d2.length : ℤ)))
      | _ => none
  | 'e' :: re =>
    if d1 = [] then none
    else (decExpPart re).map (fun e => ((digitsToNat d1 : ℤ), e))
  | 'E' :: re =>
    if d1 = [] then none
    else (decExpPart re).map (fun e => ((digitsToNat d1 : ℤ), e))
  | _ => none

def jsUnsigned (l : List Char) : Option JsVal :=
  if l = "Infinity".data then some .posInf
  else (decLit l).map (fun p => .dec p.1 p.2)

def jsNegate : JsVal → JsVal
  | .dec m e => .dec (-m) e
  | .posInf => .negInf
  | .negInf => .posInf

/-- The `0x` / `0o` / `0b` prefixed NonDecimalIntegerLiteral forms (only
reachable when the first character is `0`). -/
def jsZeroLead (c : Char) (r : List Char) : Option JsVal :=
  match r with
  | [] => jsUnsigned (c :: r)
  | p :: rr =>
    if p = 'x' || p = 'X' then
      if rr ≠ [] && rr.all isHexCh then some (.dec (hexToNat rr : ℤ) 0) else none
    else if p = 'o' || p = 'O' then
      if rr ≠ [] && rr.all isOctCh then some (.dec (octToNat rr : ℤ) 0) else none
    else if p = 'b' || p = 'B' then
      if rr ≠ [] && rr.all isBinCh then some (.dec (binToNat rr : ℤ) 0) else none
    else jsUnsigned (c :: r)

def jsNumCore (l : List Char) : Option JsVal :=
  match l with
  | [] => some (.dec 0 0)
  | c :: r =>
    if c = '+' then jsUnsigned r
    else if c = '-' then (jsUnsigned r).map jsNegate
    else if c = '0' then jsZeroLead c r
    else jsUnsigned (c :: r)

/-- `Number(s)`; `none` is `NaN`. -/
def jsNum (l : List Char) : Option JsVal := jsNumCore (trimJs l)

/-- Strip a leading `0x` / `0X` (the radix-16 `parseInt` prefix). -/
def stripHexLead (l : List Char) : List Char :=
  match l with
  | c :: p :: rr => if c = '0' && (p = 'x' || p = 'X') then rr else l
  | _ => l

/-- `parseInt(s, radix)` for radix 10 or 16: trim leading whitespace,
optional sign, optional `0x` prefix (radix 16), then the maximal prefix
of digits of the radix; `none` is `NaN`. -/
def jsParseIntR (radix : Nat) (l : List Char) : Option ℤ :=
  let t := l.dropWhile isJsSpace
  let p : ℤ × List Char :=
    match t with
    | [] => (1, [])
    | c :: r => if c = '+' then (1, r) else if c = '-' then (-1, r) else (1, c :: r)
  let r2 := if radix = 16 then stripHexLead p.2 else p.2
  let isD := if radix = 16 then isHexCh else isDigitCh
  let toN := if radix = 16 then hexToNat else digitsToNat
  let ds := r2.takeWhile isD
  if ds = [] then none else some (p.1 * (toN ds : ℤ))

/-- Decimal rendering of an integer, as JS renders a small integer
number into a template string. -/
def intDec (n : ℤ) : List Char :=
  if n < 0 then '-' :: (Nat.repr n.natAbs).data else (Nat.repr n.toNat).data

/-- Template-string rendering of a `parseInt` result (`NaN` renders as
`"NaN"`). -/
def jsNumStr (v : Option ℤ) : List Char :=
  match v with
  | none => "NaN".data
  | some n => intDec n

/-- `n.toString(16)` for an integer (negative values render with a
leading minus, as in JS). -/
def jsHexStr (n : ℤ) : List Char :=
  if n < 0 then '-' :: (Nat.toDigits 16 n.natAbs) else Nat.toDigits 16 n.toNat

/-- Truncation toward zero of `m · 10^e`. -/
def decTrunc (m e : ℤ) : ℤ :=
  if 0 ≤ e then m * 10 ^ e.toNat
  else Int.tdiv m (10 ^ (-e).toNat)

/-- ECMAScript `ToInt32`. -/
def jsToInt32 (v : Option JsVal) : ℤ :=
  match v with
  | none => 0
  | some .posInf => 0
  | some .negInf => 0
  | some (.dec m e) =>
    ((decTrunc m e + 2 ^ 31) % (2 ^ 32 : ℤ)) - 2 ^ 31

/-- `(x << 8) | y` on int32 values (two's complement `Int.lor` on the
wrapped shift). -/
def jsShl8Or (x y : ℤ) : ℤ :=
  let sh := ((x * 256 + 2 ^ 31) % (2 ^ 32 : ℤ)) - 2 ^ 31
  Int.lor sh y

/-! ## The address classifier (`src/utils/ssrf.ts`) -/

/-- `m · 10^e = n`, in exact integer arithmetic. -/
def decEqNat (m e : ℤ) (n : Nat) : Bool :=
  if 0 ≤ e then m * 10 ^ e.toNat = (n : ℤ) else m = (n : ℤ) * 10 ^ (-e).toNat

/-- `n ≤ m · 10^e`. -/
def decGeNat (m e : ℤ) (n : Nat) : Bool :=
  if 0 ≤ e then (n : ℤ) ≤ m * 10 ^ e.toNat else (n : ℤ) * 10 ^ (-e).toNat ≤ m

/-- `m · 10^e ≤ n`. -/
def decLeNat (m e : ℤ) (n : Nat) : Bool :=
  if 0 ≤ e then m * 10 ^ e.toNat ≤ (n : ℤ) else m ≤ (n : ℤ) * 10 ^ (-e).toNat

/-- One element of `ip.split(".").map(Number)` being rejected by
`isNaN(p) || p < 0 || p > 255`. -/
def badPart (p : Option JsVal) : Bool :=
  match p with
  | none => true
  | some .posInf => true
  | some .negInf => true
  | some (.dec m e) => m < 0 || !decLeNat m e 255

def jsEqN (p : Option JsVal) (n : Nat) : Bool :=
  match p with
  | some (.dec m e) => decEqNat m e n
  | _ => false

def jsGeN (p : Option JsVal) (n : Nat) : Bool :=
  match p with
  | some (.dec m e) => decGeNat m e n
  | some .posInf => true
  | _ => false

def jsLeN (p : Option JsVal) (n : Nat) : Bool :=
  match p with
  | some (.dec m e) => decLeNat m e n
  | some .negInf => true
  | _ => false

/-- `isPrivateIPv4` (ssrf.ts lines 117-156). -/
def isPrivateIPv4Core (ip : List Char) : Bool :=
  let parts := (splitCh '.' ip).map jsNum
  if parts.length ≠ 4 || parts.any badPart then true
  else
    match parts with
    | [a, b, _, _] =>
      if jsEqN a 127 then true
      else if jsEqN a 10 then true
      else if jsEqN a 172 && jsGeN b 16 && jsLeN b 31 then true
      else if jsEqN a 192 && jsEqN b 168 then true
      else if jsEqN a 169 && jsEqN b 254 then true
      else if jsEqN a 0 then true
      else false
    | _ => true

/-- The remainder after a `"::ffff:"` opener is `\d+\.\d+\.\d+\.\d+`. -/
def isDotQuadDigits (l : List Char) : Bool :=
  match splitCh '.' l with
  | [a, b, c, d] =>
    a ≠ [] && a.all isDigitCh && b ≠ [] && b.all isDigitCh &&
    c ≠ [] && c.all isDigitCh && d ≠ [] && d.all isDigitCh
  | _ => false

def isFfCh (c : Char) : Bool := c = 'f' || c = 'F'

/-- If `l` begins with `"::ffff:"` (case-insensitively, per the `/i`
flag), return the remainder. -/
def dcFfffLead : List Char → Option (List Char)
  | ':' :: ':' :: f1 :: f2 :: f3 :: f4 :: ':' :: rest =>
    if isFfCh f1 && isFfCh f2 && isFfCh f3 && isFfCh f4 then some rest else none
  | _ => none

/-- `ip.match(/::ffff:(\d+\.\d+\.\d+\.\d+)$/i)`: scan left to right for a
`"::ffff:"` whose remainder (to the end of the string) is a digit quad;
return the captured quad. -/
def v4mappedFind : List Char → Option (List Char)
  | [] => none
  | c :: cs =>
    match dcFfffLead (c :: cs) with
    | some rest => if isDotQuadDigits rest then some rest else v4mappedFind cs
    | none => v4mappedFind cs

/-- `normalizeIPv6` (ssrf.ts lines 200-228).  `none` models the
`RangeError` thrown by `Array(missing)` when the input has more groups
than `::` expansion leaves room for. -/
def normalizeIPv6Core (ip : List Char) : Option (List Char) :=
  let dotted := if ip.contains '.' then v4mappedFind ip else none
  match dotted with
  | some quad =>
    let ps := (splitCh '.' quad).map jsNum
    let p0 := jsToInt32 (ps.getD 0 none)
    let p1 := jsToInt32 (ps.getD 1 none)
    let p2 := jsToInt32 (ps.getD 2 none)
    let p3 := jsToInt32 (ps.getD 3 none)
    let hex1 := padStart4 (jsHexStr (jsShl8Or p0 p1))
    let hex2 := padStart4 (jsHexStr (jsShl8Or p2 p3))
    some ("0000:0000:0000:0000:0000:ffff:".data ++ hex1 ++ ':' :: hex2)
  | none =>
    if hasDC ip then
      let parts := splitDC ip
      let left := parts.getD 0 []
      let right := parts.getD 1 []
      let leftParts := if left = [] then [] else splitCh ':' left
      let rightParts := if right = [] then [] else splitCh ':' right
      let missing : ℤ := 8 - leftParts.length - rightParts.length
      if missing < 0 then none
      else
        let segments := leftParts ++ List.replicate missing.toNat "0000".data ++ rightParts
        some (joinC (segments.map (fun s => (padStart4 s).map lowerCh)))
    else
      some (joinC ((splitCh ':' ip).map (fun s => (padStart4 s).map lowerCh)))

def zeroOneStr : List Char := "0000:0000:0000:0000:0000:0000:0000:0001".data

def ffffMappedPre : List Char := "0000:0000:0000:0000:0000:ffff:".data

def v6RangeHit (fs : Option ℤ) : Bool :=
  match fs with
  | none => false
  | some v => (0xfc00 ≤ v && v ≤ 0xfdff) || (0xfe80 ≤ v && v ≤ 0xfebf)

/-- `isPrivateIPv6` (ssrf.ts lines 158-198).  `.error` models a thrown
exception (with the V8 message): the `RangeError` from `normalizeIPv6`,
or the `TypeError` from destructuring `lastTwoSegments.split(":")` when
it has a single element. -/
def isPrivateIPv6Core (ip : List Char) : Except String Bool :=
  let earlyQuad := if ip.contains '.' then v4mappedFind ip else none
  match earlyQuad with
  | some quad => .ok (isPrivateIPv4Core quad)
  | none =>
    match normalizeIPv6Core ip with
    | none => .error "Invalid array length"
    | some normalized =>
      if normalized = zeroOneStr then .ok true
      else if leadsWith ffffMappedPre normalized then
        let lastNine := takeLast 9 normalized
        match splitCh ':' lastNine with
        | h1 :: h2 :: _ =>
          let a := jsParseIntR 16 (h1.take 2)
          let b := jsParseIntR 16 ((h1.drop 2).take 2)
          let c := jsParseIntR 16 (h2.take 2)
          let d := jsParseIntR 16 ((h2.drop 2).take 2)
          .ok (isPrivateIPv4Core
            (jsNumStr a ++ '.' :: jsNumStr b ++ '.' :: jsNumStr c ++ '.' :: jsNumStr d))
        | _ => .error "Cannot read properties of undefined (reading \x27slice\x27)"
      else
        .ok (v6RangeHit (jsParseIntR 16 (normalized.take 4)))

/-- `isPrivateIP` (ssrf.ts lines 103-115).  `.error` models a thrown
exception. -/
def isPrivateIPCore (ip : List Char) : Except String Bool :=
  if ip = "169.254.169.254".data then .ok true
  else if ip.contains ':' then isPrivateIPv6Core ip
  else .ok (isPrivateIPv4Core ip)

def isPrivateIP (ip : String) : Except String Bool := isPrivateIPCore ip.data

/-! ## The target resolver (`resolveAndValidate`, ssrf.ts lines 234-293)

The WHATWG `new URL(...)` constructor and `dns.resolve4` / `dns.resolve6`
are platform builtins; they are passed in as oracles.  `parse` returns
the parsed `protocol` and `hostname` (or `none` when the constructor
throws); a DNS oracle returns `none` when the lookup throws and the
record list otherwise. -/

structure URLParts where
  protocol : String
  hostname : String
deriving DecidableEq, Repr

def BLOCKED_HOSTNAMES : List String :=
  ["localhost", "metadata.google.internal", "metadata.goog"]

/-- `/^(\d{1,3}\.){3}\d{1,3}$/` — four dot-separated groups of one to
three digits. -/
def ipv4LitTest (h : List Char) : Bool :=
  match splitCh '.' h with
  | [a, b, c, d] =>
    (a ≠ [] && a.length ≤ 3 && a.all isDigitCh) &&
    (b ≠ [] && b.length ≤ 3 && b.all isDigitCh) &&
    (c ≠ [] && c.length ≤ 3 && c.all isDigitCh) &&
    (d ≠ [] && d.length ≤ 3 && d.all isDigitCh)
  | _ => false

/-- `hostname.replace(/^\[|\]$/g, "")` — strip one leading `[` and one
trailing `]`. -/
def stripBrackets (h : List Char) : List Char :=
  let h1 := match h with
    | [] => []
    | c :: r => if c = '[' then r else c :: r
  match h1.getLast? with
  | some d => if d = ']' then h1.dropLast else h1
  | none => h1

/-- `/^\[?([a-fA-F0-9:]+)\]?$/` — an optional bracket pair around a
nonempty run of hex digits and colons. -/
def ipv6LitTest (h : List Char) : Bool :=
  let core := stripBrackets h
  core ≠ [] && core.all (fun c => isHexCh c || c = ':')

/-- `resolveAndValidate` (ssrf.ts lines 234-293).  `.error` carries the
thrown `Error`'s message. -/
def resolveAndValidate (parse : String → Option URLParts)
    (dns4 dns6 : String → Option (List String)) (urlString : String) :
    Except String (String × String) :=
  match parse urlString with
  | none => .error "Invalid URL"
  | some u =>
    if u.protocol ≠ "http:" && u.protocol ≠ "https:" then
      .error "Only http and https protocols are allowed"
    else
      let hostname := u.hostname
      if BLOCKED_HOSTNAMES.contains (lowerStr hostname) then .error "Hostname is blocked"
      else
        let ipRes : Except String String :=
          if ipv4LitTest hostname.data then .ok hostname
          else if ipv6LitTest hostname.data then .ok ⟨stripBrackets hostname.data⟩
          else
            match dns4 hostname with
            | some (a :: _) => .ok a
            | _ =>
              match dns6 hostname with
              | some (a :: _) => .ok a
              | _ => .error "DNS resolution failed"
        match ipRes with
        | .error e => .error e
        | .ok ip =>
          match isPrivateIPCore ip.data with
          | .error e => .error e
          | .ok true => .error "URL resolves to a private/internal IP address"
          | .ok false => .ok (hostname, ip)

/-! ## The relay executor (`proxy.ts` `proxy.post("/")`, lines 64-274)

The model covers the handler from the domain-allowlist check onward
(the admission steps 1-4 — content type, origin, declared request size,
JSON body parsing — are Hono-context plumbing with no claim about
them).  Network and platform effects are oracles: `fetch` (indexed by
the hop number), relative-URL resolution `new URL(loc, base)`,
`JSON.parse` success, and `TextDecoder` decoding.  The result carries an
instrumentation trace: every issued fetch (url, method, body) and the
number of body chunks pulled from the response reader. -/

structure AuthSpecM where
  type : String
  credentials : String
  headerName : Option String
deriving DecidableEq, Repr

structure ProxyReqM where
  url : String
  method : Option String
  /-- `JSON.stringify(proxyReq.body)` when `body !== undefined`. -/
  jsonBody : Option String
  contentType : Option String
  accept : Option String
  auth : Option AuthSpecM
deriving DecidableEq, Repr

structure ProxyCfg where
  proxyAllowedDomains : List String
  proxyMaxResponseSize : Nat
  proxyMaxRedirects : Nat
deriving DecidableEq, Repr

structure FetchRespM where
  status : Nat
  statusText : String
  headers : List (String × String)
  /-- `response.body` as a chunk list of byte chunks; `none` is a null
  body stream. -/
  body : Option (List (List Nat))
deriving DecidableEq, Repr

inductive FetchErrM where
  | abortError
  | other (msg : String)
deriving DecidableEq, Repr

structure FetchCallM where
  url : String
  method : String
  headers : List (String × String)
  body : Option String
deriving DecidableEq, Repr

structure OraclesM where
  parse : String → Option URLParts
  dns4 : String → Option (List String)
  dns6 : String → Option (List String)
  /-- `new URL(location, currentUrl).toString()`; `none` when the
  constructor throws. -/
  resolveRel : String → String → Option String
  fetch : Nat → FetchCallM → Except FetchErrM FetchRespM
  /-- whether `JSON.parse` succeeds on the given text. -/
  jsonParses : String → Bool
  /-- `TextDecoder` decoding of the accumulated chunks. -/
  decode : List (List Nat) → String

/-- `Headers.prototype.get` (case-insensitive name lookup). -/
def hGet (hs : List (String × String)) (k : String) : Option String :=
  (hs.find? (fun kv => lowerStr kv.1 = k)).map (·.2)

/-- Assignment into a JS record (`headers[name] = value`). -/
def setH (hs : List (String × String)) (k v : String) : List (String × String) :=
  if hs.any (·.1 = k) then hs.map (fun kv => if kv.1 = k then (k, v) else kv)
  else hs ++ [(k, v)]

/-- JS truthiness of an optional string field (absent or empty is falsy). -/
def jsTruthyStr : Option String → Option String
  | some v => if v = "" then none else some v
  | none => none

/-- Outgoing headers (proxy.ts lines 84-113). -/
def buildOutgoingHeaders (req : ProxyReqM) : List (String × String) :=
  let h0 := [("User-Agent", "ZenBin-Proxy/1.0")]
  let h1 := match jsTruthyStr req.contentType with
    | some ct => setH h0 "Content-Type" ct
    | none => if req.jsonBody.isSome then setH h0 "Content-Type" "application/json" else h0
  let h2 := match jsTruthyStr req.accept with
    | some a => setH h1 "Accept" a
    | none => h1
  match req.auth with
  | none => h2
  | some auth =>
    if auth.type = "bearer" then setH h2 "Authorization" ("Bearer " ++ auth.credentials)
    else if auth.type = "basic" then setH h2 "Authorization" ("Basic " ++ auth.credentials)
    else if auth.type = "api-key" then
      let name := match jsTruthyStr auth.headerName with
        | some n => n
        | none => "X-API-Key"
      setH h2 name auth.credentials
    else h2

def strEndsWith (s suf : String) : Bool := leadsWith suf.data.reverse s.data.reverse

/-- The domain-allowlist predicate applied to a URL (proxy.ts lines
66-70 and 164-167): the parsed hostname, lower-cased, equals an allowed
domain or is a subdomain of one. -/
def domainAllowed (cfg : ProxyCfg) (parse : String → Option URLParts) (u : String) : Bool :=
  match parse u with
  | none => false
  | some p =>
    let h := lowerStr p.hostname
    cfg.proxyAllowedDomains.any
      (fun d => h = lowerStr d || strEndsWith h ("." ++ lowerStr d))

inductive LoopOut where
  | finalResp (r : FetchRespM)
  | errorOut (status : Nat) (msg : String)
deriving DecidableEq, Repr

def isRedirectStatus (n : Nat) : Bool :=
  n = 301 || n = 302 || n = 303 || n = 307 || n = 308

/-- The manual-redirect fetch loop (proxy.ts lines 128-187), with the
trace of issued fetches.  `fuel` is an upper bound on the remaining
iterations; the handler calls it with `maxRedirects + 1`, which the
hop-count guard makes sufficient, so the fuel-exhausted branch is
unreachable from `handleProxy`. -/
def redirectLoop (cfg : ProxyCfg) (or : OraclesM) (outH : List (String × String))
    (method0 : String) (body0 : Option String) :
    Nat → String → Nat → List FetchCallM × LoopOut
  | 0, _, _ => ([], .errorOut 502 "redirect loop fuel exhausted")
  | fuel + 1, url, count =>
    let call : FetchCallM :=
      { url := url
        method := if count = 0 then method0 else "GET"
        headers := outH
        body :=
          if count = 0 && body0.isSome && !(method0 = "GET" || method0 = "HEAD") then body0
          else none }
    match or.fetch count call with
    | .error .abortError => ([call], .errorOut 504 "Request timed out")
    | .error (.other m) => ([call], .errorOut 502 m)
    | .ok resp =>
      if isRedirectStatus resp.status then
        match hGet resp.headers "location" with
        | none => ([call], .finalResp resp)
        | some loc =>
          match or.resolveRel loc url with
          | none => ([call], .errorOut 502 "Invalid URL")
          | some redirectUrl =>
            match resolveAndValidate or.parse or.dns4 or.dns6 redirectUrl with
            | .error m => ([call], .errorOut 400 ("Redirect blocked: " ++ m))
            | .ok _ =>
              if cfg.proxyAllowedDomains ≠ [] && !domainAllowed cfg or.parse redirectUrl then
                ([call], .errorOut 400 "Redirect target domain is not in the allowlist")
              else if cfg.proxyMaxRedirects < count + 1 then
                ([call],
                  .errorOut 502 ("Too many redirects (max: " ++ Nat.repr cfg.proxyMaxRedirects ++ ")"))
              else
                let rest := redirectLoop cfg or outH method0 body0 fuel redirectUrl (count + 1)
                (call :: rest.1, rest.2)
      else ([call], .finalResp resp)

/-- Streaming body read under the byte cap (proxy.ts lines 216-230):
returns whether the read completed and how many chunks were pulled
before completing or cancelling. -/
def readChunks (cap : Nat) : Nat → List (List Nat) → Bool × Nat
  | _, [] => (true, 0)
  | total, ch :: rest =>
    let t := total + ch.length
    if cap < t then (false, 1)
    else
      let r := readChunks cap t rest
      (r.1, r.2 + 1)

def sumLens (chunks : List (List Nat)) : Nat := (chunks.map List.length).sum

/-- Response-header sanitisation (proxy.ts lines 243-250): copy all
headers whose lower-cased name is not `set-cookie`. -/
def sanitizeHeaders (hs : List (String × String)) : List (String × String) :=
  hs.filter (fun kv => lowerStr kv.1 ≠ "set-cookie")

inductive RBodyM where
  /-- the body text parsed as JSON (the raw text is recorded). -/
  | jsonParsed (raw : String)
  /-- the body returned as plain text. -/
  | rawText (s : String)
deriving DecidableEq, Repr

/-- Body classification (proxy.ts lines 252-263). -/
def bodyOf (jsonParses : String → Bool) (ct : String) (text : String) : RBodyM :=
  if containsSubStr ct "application/json" then
    if jsonParses text then .jsonParsed text else .rawText text
  else .rawText text

structure ProxyRespM where
  status : Nat
  statusText : String
  headers : List (String × String)
  body : RBodyM
deriving DecidableEq, Repr

inductive OutBodyM where
  | errJson (msg : String)
  | relay (p : ProxyRespM)
deriving DecidableEq, Repr

structure TraceM where
  fetches : List FetchCallM
  chunksRead : Nat
deriving DecidableEq, Repr

/-- The declared Content-Length rejection test (proxy.ts lines 204-207):
a present, truthy header whose `parseInt` exceeds the cap. -/
def clTooLarge (cfg : ProxyCfg) (r : FetchRespM) : Bool :=
  match hGet r.headers "content-length" with
  | none => false
  | some s =>
    s ≠ "" &&
      (match jsParseIntR 10 s.data with
       | some n => (cfg.proxyMaxResponseSize : ℤ) < n
       | none => false)

/-- The sanitised `ProxyResponse` (proxy.ts lines 242-271). -/
def mkRelayResp (or : OraclesM) (r : FetchRespM) (text : String) : ProxyRespM :=
  { status := r.status
    statusText := r.statusText
    headers := sanitizeHeaders r.headers
    body :=
      let ct := (hGet r.headers "content-type").getD ""
      bodyOf or.jsonParses ct text }

/-- The effective method string: `(proxyReq.method || "GET").toUpperCase()`. -/
def methodOf (req : ProxyReqM) : String :=
  upperStr ((jsTruthyStr req.method).getD "GET")

/-- The redirect loop as invoked by the handler. -/
def relayLoopOf (cfg : ProxyCfg) (or : OraclesM) (req : ProxyReqM) :
    List FetchCallM × LoopOut :=
  redirectLoop cfg or (buildOutgoingHeaders req) (methodOf req) req.jsonBody
    (cfg.proxyMaxRedirects + 1) req.url 0

/-- Steps 9-11 of the handler (response size check, streamed body read,
sanitisation), applied to the loop's outcome. -/
def relayRespond (cfg : ProxyCfg) (or : OraclesM)
    (lp : List FetchCallM × LoopOut) : (Nat × OutBodyM) × TraceM :=
  match lp.2 with
  | .errorOut s m => ((s, .errJson m), ⟨lp.1, 0⟩)
  | .finalResp r =>
    if clTooLarge cfg r then ((502, .errJson "Response too large"), ⟨lp.1, 0⟩)
    else
      match r.body with
      | none => ((200, .relay (mkRelayResp or r "")), ⟨lp.1, 0⟩)
      | some chunks =>
        let rd := readChunks cfg.proxyMaxResponseSize 0 chunks
        if rd.1 then
          ((200, .relay (mkRelayResp or r (or.decode chunks))), ⟨lp.1, rd.2⟩)
        else ((502, .errJson "Response too large"), ⟨lp.1, rd.2⟩)

/-- The relay handler from the allowlist check to the reply (proxy.ts
lines 64-274).  A 500 result models an exception escaping to the global
Hono error handler (`new URL(proxyReq.url)` throwing inside the
allowlist check, which step-4 validation makes unreachable). -/
def handleProxy (cfg : ProxyCfg) (or : OraclesM) (req : ProxyReqM) :
    (Nat × OutBodyM) × TraceM :=
  if cfg.proxyAllowedDomains ≠ [] && (or.parse req.url).isNone then
    ((500, .errJson "Internal Server Error"), ⟨[], 0⟩)
  else if cfg.proxyAllowedDomains ≠ [] && !domainAllowed cfg or.parse req.url then
    ((400, .errJson "Target domain is not in the allowlist"), ⟨[], 0⟩)
  else
    match resolveAndValidate or.parse or.dns4 or.dns6 req.url with
    | .error m => ((400, .errJson m), ⟨[], 0⟩)
    | .ok _ => relayRespond cfg or (relayLoopOf cfg or req)

/-! ## Spec-side predicates used to state the claims -/

/-- A nonempty decimal-digit group. -/
def decOctet (g : List Char) : Bool := g ≠ [] && g.all isDigitCh

/-- The dotted-quad string built from four groups. -/
def dottedQuad (s1 s2 s3 s4 : List Char) : List Char :=
  s1 ++ '.' :: (s2 ++ '.' :: (s3 ++ '.' :: s4))

/-- The string parses into exactly four decimal octets in `[0, 255]`
(the literal reading of the claim's "four octets"). -/
def strictOctetQuad (l : List Char) : Bool :=
  match splitCh '.' l with
  | [a, b, c, d] =>
    (decOctet a && digitsToNat a ≤ 255) && (decOctet b && digitsToNat b ≤ 255) &&
    (decOctet c && digitsToNat c ≤ 255) && (decOctet d && digitsToNat d ≤ 255)
  | _ => false

/-- The string's dot-separated parts convert under JavaScript `Number`
semantics to exactly four non-`NaN` values in `[0, 255]` — the parse
condition `isPrivateIPv4` actually enforces. -/
def jsParses4 (l : List Char) : Bool :=
  let parts := (splitCh '.' l).map jsNum
  parts.length = 4 && parts.all (fun p => !badPart p)

/-- The private/reserved IPv4 bands of the claim, on the values of the
first two octets. -/
def inPrivateBand (a b : Nat) : Prop :=
  a = 127 ∨ a = 10 ∨ (a = 172 ∧ 16 ≤ b ∧ b ≤ 31) ∨ (a = 192 ∧ b = 168) ∨
    (a = 169 ∧ b = 254) ∨ a = 0

/-! ## List-level lemmas about the JS string primitives -/

theorem splitCh_ne_nil (sep : Char) (l : List Char) : splitCh sep l ≠ [] := by
  cases l with
  | nil => simp [splitCh]
  | cons c cs =>
    simp only [splitCh]
    split
    · simp
    · split <;> simp

theorem splitCh_of_not_mem (sep : Char) (l : List Char) (h : sep ∉ l) :
    splitCh sep l = [l] := by
  induction l with
  | nil => rfl
  | cons c cs ih =>
    have hc : ¬ c = sep := fun e => h (e ▸ List.mem_cons_self c cs)
    have hcs : sep ∉ cs := fun m => h (List.mem_cons_of_mem _ m)
    simp [splitCh, ih hcs, hc]

theorem splitCh_append (sep : Char) (xs ys : List Char) (h : sep ∉ xs) :
    splitCh sep (xs ++ sep :: ys) = xs :: splitCh sep ys := by
  induction xs with
  | nil =>
    simp only [List.nil_append, splitCh]
    cases hs : splitCh sep ys with
    | nil => exact absurd hs (splitCh_ne_nil sep ys)
    | cons a as => simp
  | cons c cs ih =>
    have hc : ¬ c = sep := fun e => h (e ▸ List.mem_cons_self c cs)
    have hcs : sep ∉ cs := fun m => h (List.mem_cons_of_mem _ m)
    have ih' := ih hcs
    simp only [List.cons_append, splitCh]
    rw [show cs.append (sep :: ys) = cs ++ sep :: ys from rfl, ih']
    simp [hc]

theorem dropWhile_eq_self_of_all (p : Char → Bool) (l : List Char)
    (h : ∀ c ∈ l, p c = false) : l.dropWhile p = l := by
  cases l with
  | nil => rfl
  | cons c cs => simp [List.dropWhile, h c (List.mem_cons_self c cs)]

theorem trimJs_of_no_space (l : List Char) (h : ∀ c ∈ l, isJsSpace c = false) :
    trimJs l = l := by
  unfold trimJs
  rw [dropWhile_eq_self_of_all _ _ h]
  rw [dropWhile_eq_self_of_all _ _ (fun c m => h c (List.mem_reverse.mp m))]
  exact List.reverse_reverse l

theorem digit_not_space (c : Char) (h : isDigitCh c = true) : isJsSpace c = false := by
  simp only [isDigitCh, Bool.and_eq_true, decide_eq_true_eq] at h
  simp only [isJsSpace, Bool.or_eq_false_iff, decide_eq_false_iff_not]
  omega

theorem takeWhile_eq_self_of_all (p : Char → Bool) (l : List Char)
    (h : ∀ c ∈ l, p c = true) : l.takeWhile p = l := by
  induction l with
  | nil => rfl
  | cons c cs ih =>
    simp [List.takeWhile, h c (List.mem_cons_self c cs),
      ih (fun x m => h x (List.mem_cons_of_mem _ m))]

theorem dropWhile_eq_nil_of_all (p : Char → Bool) (l : List Char)
    (h : ∀ c ∈ l, p c = true) : l.dropWhile p = [] := by
  induction l with
  | nil => rfl
  | cons c cs ih =>
    simp [List.dropWhile, h c (List.mem_cons_self c cs),
      ih (fun x m => h x (List.mem_cons_of_mem _ m))]

/-- `Number` on a nonempty all-digit string yields its decimal value. -/
theorem jsNum_digits (l : List Char) (hne : l ≠ [])
    (h : ∀ c ∈ l, isDigitCh c = true) :
    jsNum l = some (.dec (digitsToNat l : ℤ) 0) := by
  have htrim : trimJs l = l :=
    trimJs_of_no_space l (fun c m => digit_not_space c (h c m))
  unfold jsNum
  rw [htrim]
  have hdec : decLit l = some ((digitsToNat l : ℤ), 0) := by
    unfold decLit
    rw [takeWhile_eq_self_of_all _ _ h, dropWhile_eq_nil_of_all _ _ h]
    simp [hne]
  have hinf : ¬ l = "Infinity".data := by
    intro e
    have := h 'I' (by rw [e]; exact List.mem_cons_self _ _)
    simp [isDigitCh] at this
  have huns : jsUnsigned l = some (.dec (digitsToNat l : ℤ) 0) := by
    unfold jsUnsigned
    rw [if_neg hinf, hdec]
    rfl
  cases l with
  | nil => exact absurd rfl hne
  | cons c cs =>
    have hc := h c (List.mem_cons_self c cs)
    have hplus : ¬ c = '+' := by intro e; subst e; revert hc; decide
    have hminus : ¬ c = '-' := by intro e; subst e; revert hc; decide
    simp only [jsNumCore, if_neg hplus, if_neg hminus]
    by_cases hz : c = '0'
    · rw [if_pos hz]
      cases cs with
      | nil => exact huns
      | cons p rr =>
        have hp := h p (List.mem_cons_of_mem _ (List.mem_cons_self p rr))
        have hx1 : ¬ p = 'x' := fun e => by subst e; revert hp; decide
        have hx2 : ¬ p = 'X' := fun e => by subst e; revert hp; decide
        have ho1 : ¬ p = 'o' := fun e => by subst e; revert hp; decide
        have ho2 : ¬ p = 'O' := fun e => by subst e; revert hp; decide
        have hb1 : ¬ p = 'b' := fun e => by subst e; revert hp; decide
        have hb2 : ¬ p = 'B' := fun e => by subst e; revert hp; decide
        simp only [jsZeroLead, hx1, hx2, ho1, ho2, hb1, hb2, decide_False,
          Bool.or_self, Bool.false_eq_true, if_false]
        exact huns
    · rw [if_neg hz]
      exact huns

theorem not_dot_of_digits (g : List Char) (h : ∀ c ∈ g, isDigitCh c = true) :
    '.' ∉ g := fun m => absurd (h _ m) (by decide)

theorem splitCh_dottedQuad (s1 s2 s3 s4 : List Char)
    (h1 : ∀ c ∈ s1, isDigitCh c = true) (h2 : ∀ c ∈ s2, isDigitCh c = true)
    (h3 : ∀ c ∈ s3, isDigitCh c = true) (h4 : ∀ c ∈ s4, isDigitCh c = true) :
    splitCh '.' (dottedQuad s1 s2 s3 s4) = [s1, s2, s3, s4] := by
  unfold dottedQuad
  rw [splitCh_append '.' s1 _ (not_dot_of_digits s1 h1),
    splitCh_append '.' s2 _ (not_dot_of_digits s2 h2),
    splitCh_append '.' s3 _ (not_dot_of_digits s3 h3),
    splitCh_of_not_mem '.' s4 (not_dot_of_digits s4 h4)]

theorem contains_false_of_not_mem (l : List Char) (c : Char) (h : c ∉ l) :
    l.contains c = false := by
  induction l with
  | nil => rfl
  | cons x xs ih =>
    have hx : (c == x) = false := by
      simp only [beq_eq_false_iff_ne, ne_eq]
      exact fun e => h (e ▸ List.mem_cons_self x xs)
    have hxs := ih (fun m => h (List.mem_cons_of_mem _ m))
    simp only [List.contains, List.elem, hx] at hxs ⊢
    exact hxs

theorem colon_not_mem_dottedQuad (s1 s2 s3 s4 : List Char)
    (h1 : ∀ c ∈ s1, isDigitCh c = true) (h2 : ∀ c ∈ s2, isDigitCh c = true)
    (h3 : ∀ c ∈ s3, isDigitCh c = true) (h4 : ∀ c ∈ s4, isDigitCh c = true) :
    ':' ∉ dottedQuad s1 s2 s3 s4 := by
  intro m
  unfold dottedQuad at m
  simp only [List.mem_append, List.mem_cons] at m
  rcases m with m | (m | (m | (m | (m | (m | m)))))
  · exact absurd (h1 _ m) (by decide)
  · exact absurd m (by decide)
  · exact absurd (h2 _ m) (by decide)
  · exact absurd m (by decide)
  · exact absurd (h3 _ m) (by decide)
  · exact absurd m (by decide)
  · exact absurd (h4 _ m) (by decide)

theorem jsEqN_dec0 (v n : Nat) : jsEqN (some (.dec (v : ℤ) 0)) n = decide (v = n) := by
  simp [jsEqN, decEqNat]

theorem jsGeN_dec0 (v n : Nat) : jsGeN (some (.dec (v : ℤ) 0)) n = decide (n ≤ v) := by
  simp [jsGeN, decGeNat]

theorem jsLeN_dec0 (v n : Nat) : jsLeN (some (.dec (v : ℤ) 0)) n = decide (v ≤ n) := by
  simp [jsLeN, decLeNat]

theorem badPart_dec0 (v : Nat) : badPart (some (.dec (v : ℤ) 0)) = decide (255 < v) := by
  by_cases h : 255 < v
  · simp only [badPart, decLeNat]
    have h1 : ¬ ((v : ℤ) * 10 ^ ((0 : ℤ)).toNat ≤ 255) := by simp; omega
    simp [h1, h]
  · simp only [badPart, decLeNat]
    have h2 : ((v : ℤ) * 10 ^ ((0 : ℤ)).toNat ≤ 255) := by simp; omega
    have h3 : ¬ ((v : ℤ) < 0) := by omega
    simp [h2, h3, h]
    omega

/-- An in-band dotted quad of decimal octets is classified private by
`isPrivateIPv4`. -/
theorem isPrivateIPv4Core_band (s1 s2 s3 s4 : List Char)
    (h1 : decOctet s1 = true) (h2 : decOctet s2 = true)
    (h3 : decOctet s3 = true) (h4 : decOctet s4 = true)
    (hv1 : digitsToNat s1 ≤ 255) (hv2 : digitsToNat s2 ≤ 255)
    (hv3 : digitsToNat s3 ≤ 255) (hv4 : digitsToNat s4 ≤ 255)
    (hband : inPrivateBand (digitsToNat s1) (digitsToNat s2)) :
    isPrivateIPv4Core (dottedQuad s1 s2 s3 s4) = true := by
  simp only [decOctet, Bool.and_eq_true, ne_eq, decide_eq_true_eq, List.all_eq_true] at h1 h2 h3 h4
  obtain ⟨hne1, hd1⟩ := h1
  obtain ⟨hne2, hd2⟩ := h2
  obtain ⟨hne3, hd3⟩ := h3
  obtain ⟨hne4, hd4⟩ := h4
  unfold isPrivateIPv4Core
  rw [splitCh_dottedQuad s1 s2 s3 s4 hd1 hd2 hd3 hd4]
  simp only [List.map_cons, List.map_nil,
    jsNum_digits s1 hne1 hd1, jsNum_digits s2 hne2 hd2,
    jsNum_digits s3 hne3 hd3, jsNum_digits s4 hne4 hd4]
  simp only [List.length_cons, List.length_nil, List.any_cons, List.any_nil,
    badPart_dec0, jsEqN_dec0, jsGeN_dec0, jsLeN_dec0]
  have e1 : decide (255 < digitsToNat s1) = false := by simp; omega
  have e2 : decide (255 < digitsToNat s2) = false := by simp; omega
  have e3 : decide (255 < digitsToNat s3) = false := by simp; omega
  have e4 : decide (255 < digitsToNat s4) = false := by simp; omega
  simp only [e1, e2, e3, e4]
  norm_num
  rcases hband with h | h | ⟨h, hb1, hb2⟩ | ⟨h, hb⟩ | ⟨h, hb⟩ | h <;>
    simp [h] <;> omega

/-! ## Claim C1: the IPv4 side of the classifier -/

/-- **C1** (amended): for every dotted quad of decimal octets whose
value lies in 127.0.0.0/8, 10.0.0.0/8, 172.16.0.0-172.31.255.255,
192.168.0.0/16, 169.254.0.0/16 or 0.0.0.0/8, `isPrivateIP` returns
`true`; for `"8.8.8.8"`, `"1.1.1.1"` and `"172.32.0.1"` it returns
`false`; and every colon-free string whose dot-separated parts do not
convert, under JavaScript `Number` semantics, into exactly four non-NaN
values in `[0, 255]` returns `true`.  (The original claim's "does not
parse into exactly four octets" reading fails on hex/exponent forms such
as `"85e-1.8.8.8"`; see the counterexample.) -/
theorem C1_ipv4_classifier :
    (∀ s1 s2 s3 s4 : List Char,
      decOctet s1 = true → decOctet s2 = true → decOctet s3 = true → decOctet s4 = true →
      digitsToNat s1 ≤ 255 → digitsToNat s2 ≤ 255 →
      digitsToNat s3 ≤ 255 → digitsToNat s4 ≤ 255 →
      inPrivateBand (digitsToNat s1) (digitsToNat s2) →
      isPrivateIP ⟨dottedQuad s1 s2 s3 s4⟩ = .ok true) ∧
    isPrivateIP "8.8.8.8" = .ok false ∧
    isPrivateIP "1.1.1.1" = .ok false ∧
    isPrivateIP "172.32.0.1" = .ok false ∧
    (∀ l : List Char, l.contains ':' = false → jsParses4 l = false →
      isPrivateIP ⟨l⟩ = .ok true) := by
  refine ⟨?_, by decide, by decide, by decide, ?_⟩
  · intro s1 s2 s3 s4 h1 h2 h3 h4 hv1 hv2 hv3 hv4 hband
    have hd1 : ∀ c ∈ s1, isDigitCh c = true := by
      simp only [decOctet, Bool.and_eq_true, List.all_eq_true] at h1; exact h1.2
    have hd2 : ∀ c ∈ s2, isDigitCh c = true := by
      simp only [decOctet, Bool.and_eq_true, List.all_eq_true] at h2; exact h2.2
    have hd3 : ∀ c ∈ s3, isDigitCh c = true := by
      simp only [decOctet, Bool.and_eq_true, List.all_eq_true] at h3; exact h3.2
    have hd4 : ∀ c ∈ s4, isDigitCh c = true := by
      simp only [decOctet, Bool.and_eq_true, List.all_eq_true] at h4; exact h4.2
    show isPrivateIPCore (dottedQuad s1 s2 s3 s4) = .ok true
    by_cases heq : dottedQuad s1 s2 s3 s4 = "169.254.169.254".data
    · simp [isPrivateIPCore, heq]
    · have hcolon := contains_false_of_not_mem _ ':'
        (colon_not_mem_dottedQuad s1 s2 s3 s4 hd1 hd2 hd3 hd4)
      simp only [isPrivateIPCore, if_neg heq, hcolon, Bool.false_eq_true, if_false]
      rw [isPrivateIPv4Core_band s1 s2 s3 s4 h1 h2 h3 h4 hv1 hv2 hv3 hv4 hband]
  · intro l hcolon hparse
    show isPrivateIPCore l = .ok true
    unfold isPrivateIPCore
    by_cases heq : l = "169.254.169.254".data
    · simp [heq]
    · simp only [if_neg heq, hcolon, Bool.false_eq_true, if_false]
      unfold jsParses4 at hparse
      unfold isPrivateIPv4Core
      by_cases hlen : ((splitCh '.' l).map jsNum).length = 4
      · simp only [hlen, decide_True, Bool.true_and] at hparse
        have hany : ((splitCh '.' l).map jsNum).any badPart = true := by
          rw [List.any_eq_true]
          by_contra hno
          push_neg at hno
          have hall : ((splitCh '.' l).map jsNum).all (fun p => !badPart p) = true := by
            rw [List.all_eq_true]
            intro x hx
            simp only [Bool.not_eq_true']
            exact Bool.eq_false_iff.mpr (fun ht => hno x hx ht)
          rw [hall] at hparse
          exact absurd hparse (by simp)
        simp [hany]
      · rw [if_pos]
        simp only [Bool.or_eq_true, decide_eq_true_eq]
        left
        exact hlen

/-- **C1 counterexample**: `"85e-1.8.8.8"` is a colon-free string that
does not parse into four octets in `[0, 255]` (its first part is not a
decimal octet; under JS `Number` conversion it has the fractional value
8.5), yet `isPrivateIP` returns `false`, not `true` as the claim
requires. -/
theorem C1_ipv4_classifier_counterexample :
    strictOctetQuad "85e-1.8.8.8".data = false ∧
    "85e-1.8.8.8".data.contains ':' = false ∧
    isPrivateIP "85e-1.8.8.8" = .ok false := by decide

/-- Witness: C1's amended theorem applied at concrete inputs. -/
theorem C1_ipv4_classifier_witness :
    isPrivateIP "127.3.4.5" = .ok true ∧ isPrivateIP "abc" = .ok true := by
  constructor
  · exact C1_ipv4_classifier.1 "127".data "3".data "4".data "5".data
      (by decide) (by decide) (by decide) (by decide)
      (by decide) (by decide) (by decide) (by decide) (Or.inl (by decide))
  · exact C1_ipv4_classifier.2.2.2.2 "abc".data (by decide) (by decide)

/-! ## Claim C5: totality of the classifier (code bug) -/

/-- **C5** (evidence for the code bug): the classifier is *not* total
and does *not* fail closed on malformed input — `isPrivateIP` throws a
`RangeError` on `"1:2:3:4:5:6:7:8::9"` (the `::` expansion computes a
negative array length), throws a `TypeError` on
`"0:0:0:0:0:ffff:123456789"` (the nine-character tail has no colon to
split on), and returns `false` (public, fail-open) on the malformed
IPv6 string `"1:2:3"`. -/
theorem C5_classifier_totality_bug :
    isPrivateIP "1:2:3:4:5:6:7:8::9" = .error "Invalid array length" ∧
    isPrivateIP "0:0:0:0:0:ffff:123456789" =
      .error "Cannot read properties of undefined (reading \x27slice\x27)" ∧
    isPrivateIP "1:2:3" = .ok false := by decide

/-! ## Claim C2: the IPv6 side of the classifier

Spec-side well-formedness of a hex-group IPv6 textual address (either
the full eight-group form, or a single `::` compression with at most
seven surrounding groups), and the value of its first 16-bit segment. -/

/-- A one-to-four-digit hexadecimal group. -/
def hexGroupOK (g : List Char) : Bool := g ≠ [] && g.length ≤ 4 && g.all isHexCh

/-- Full 8-group hex form (no `::`). -/
def hexIPv6Full (s : List Char) : Bool :=
  !hasDC s && (splitCh ':' s).length = 8 && (splitCh ':' s).all hexGroupOK

/-- Compressed hex form: exactly one `::`, hex groups on both sides,
at most seven groups in total. -/
def hexIPv6Comp (s : List Char) : Bool :=
  match splitDC s with
  | [l, r] =>
    let lg := if l = [] then [] else splitCh ':' l
    let rg := if r = [] then [] else splitCh ':' r
    lg.all hexGroupOK && rg.all hexGroupOK && lg.length + rg.length ≤ 7
  | _ => false

/-- A well-formed hex-form IPv6 address string (no embedded dotted
quad). -/
def wellFormedHexIPv6 (s : List Char) : Bool :=
  s.all (fun c => isHexCh c || c = ':') && (hexIPv6Full s || hexIPv6Comp s)

/-- The textual first group of the address (empty when the address
starts with `::`). -/
def firstGroup (s : List Char) : List Char :=
  if hasDC s then
    match splitDC s with
    | l :: _ => if l = [] then [] else (splitCh ':' l).headD []
    | [] => []
  else (splitCh ':' s).headD []

/-- The value of the first 16-bit segment of the normalized (fully
expanded) form of the address. -/
def firstSegVal (s : List Char) : Nat := hexToNat (firstGroup s)

/-- The fc00::/7 ∪ fe80::/10 band of the claim. -/
def inV6PrivateBand (v : Nat) : Prop :=
  (0xfc00 ≤ v ∧ v ≤ 0xfdff) ∨ (0xfe80 ≤ v ∧ v ≤ 0xfebf)

theorem contains_true_of_mem (l : List Char) (c : Char) (h : c ∈ l) :
    l.contains c = true := by
  induction l with
  | nil => exact absurd h (List.not_mem_nil c)
  | cons x xs ih =>
    by_cases hx : c = x
    · simp only [List.contains, List.elem]
      simp [hx]
    · have hm : c ∈ xs := by
        rcases List.mem_cons.mp h with h' | h'
        · exact absurd h' hx
        · exact h'
      have := ih hm
      simp only [List.contains, List.elem] at this ⊢
      simp only [beq_eq_false_iff_ne.mpr hx]
      simpa using this

theorem char_toNat_ofNat (n : Nat) (h : n < 0xd800) : (Char.ofNat n).toNat = n := by
  have hv : n.isValidChar := Or.inl h
  rw [Char.ofNat, dif_pos hv]
  simp [Char.ofNatAux, Char.toNat, UInt32.toNat, BitVec.toNat_ofNatLt]

theorem lowerCh_hex (c : Char) (h : isHexCh c = true) :
    isHexCh (lowerCh c) = true ∧ hexVal (lowerCh c) = hexVal c := by
  simp only [isHexCh, isDigitCh, Bool.or_eq_true, Bool.and_eq_true, decide_eq_true_eq] at h
  unfold lowerCh
  by_cases hr : 65 ≤ c.toNat && c.toNat ≤ 90
  · simp only [Bool.and_eq_true, decide_eq_true_eq] at hr
    have hAF : 65 ≤ c.toNat ∧ c.toNat ≤ 70 := by omega
    rw [if_pos (by simp only [Bool.and_eq_true, decide_eq_true_eq]; omega)]
    have ht : (Char.ofNat (c.toNat + 32)).toNat = c.toNat + 32 :=
      char_toNat_ofNat _ (by omega)
    constructor
    · simp only [isHexCh, isDigitCh, Bool.or_eq_true, Bool.and_eq_true, decide_eq_true_eq, ht]
      omega
    · simp only [hexVal, isDigitCh, Bool.and_eq_true, decide_eq_true_eq, ht]
      rw [if_neg (by omega), if_pos (by omega), if_neg (by omega), if_neg (by omega)]
      omega
  · rw [if_neg hr]
    exact ⟨by simp only [isHexCh, isDigitCh, Bool.or_eq_true, Bool.and_eq_true,
      decide_eq_true_eq]; omega, rfl⟩

theorem hexToNat_map_lowerCh (g : List Char) (h : ∀ c ∈ g, isHexCh c = true) :
    hexToNat (g.map lowerCh) = hexToNat g := by
  unfold hexToNat
  suffices hgen : ∀ a : Nat,
      (g.map lowerCh).foldl (fun a c => 16 * a + hexVal c) a =
        g.foldl (fun a c => 16 * a + hexVal c) a from hgen 0
  induction g with
  | nil => intro a; rfl
  | cons x xs ih =>
    intro a
    simp only [List.map_cons, List.foldl_cons]
    rw [(lowerCh_hex x (h x (List.mem_cons_self x xs))).2]
    exact ih (fun c m => h c (List.mem_cons_of_mem _ m)) _

theorem all_hex_map_lowerCh (g : List Char) (h : ∀ c ∈ g, isHexCh c = true) :
    ∀ c ∈ g.map lowerCh, isHexCh c = true := by
  intro c m
  rcases List.mem_map.mp m with ⟨x, hx, rfl⟩
  exact (lowerCh_hex x (h x hx)).1

theorem hexToNat_replicate_zero (k : Nat) (g : List Char) :
    hexToNat (List.replicate k '0' ++ g) = hexToNat g := by
  induction k with
  | zero => rfl
  | succ n ih =>
    simpa [List.replicate_succ, hexToNat, List.foldl_cons, hexVal, digitVal,
      isDigitCh] using ih

theorem hexToNat_padStart4 (g : List Char) :
    hexToNat (padStart4 g) = hexToNat g := by
  unfold padStart4
  by_cases h : 4 ≤ g.length
  · rw [if_pos h]
  · rw [if_neg h]
    exact hexToNat_replicate_zero _ g

theorem padStart4_length (g : List Char) (h : g.length ≤ 4) :
    (padStart4 g).length = 4 := by
  unfold padStart4
  by_cases h4 : 4 ≤ g.length
  · rw [if_pos h4]; omega
  · rw [if_neg h4]
    simp only [List.length_append, List.length_replicate]
    omega

theorem all_hex_padStart4 (g : List Char) (h : ∀ c ∈ g, isHexCh c = true) :
    ∀ c ∈ padStart4 g, isHexCh c = true := by
  intro c m
  unfold padStart4 at m
  by_cases h4 : 4 ≤ g.length
  · rw [if_pos h4] at m; exact h c m
  · rw [if_neg h4] at m
    rcases List.mem_append.mp m with m | m
    · rw [List.eq_of_mem_replicate m]; decide
    · exact h c m

theorem hex_not_space (c : Char) (h : isHexCh c = true) : isJsSpace c = false := by
  simp only [isHexCh, isDigitCh, Bool.or_eq_true, Bool.and_eq_true, decide_eq_true_eq] at h
  simp only [isJsSpace, Bool.or_eq_false_iff, decide_eq_false_iff_not]
  omega

/-- `parseInt(s, 16)` on a nonempty all-hex-digit string is its value. -/
theorem jsParseIntR16_hex (l : List Char) (hne : l ≠ [])
    (h : ∀ c ∈ l, isHexCh c = true) :
    jsParseIntR 16 l = some (hexToNat l : ℤ) := by
  cases l with
  | nil => exact absurd rfl hne
  | cons c cs =>
    have hc := h c (List.mem_cons_self c cs)
    have hplus : ¬ c = '+' := fun e => by subst e; revert hc; decide
    have hminus : ¬ c = '-' := fun e => by subst e; revert hc; decide
    have hdrop : (c :: cs).dropWhile isJsSpace = c :: cs := by
      simp [List.dropWhile, hex_not_space c hc]
    have hstrip : stripHexLead (c :: cs) = c :: cs := by
      unfold stripHexLead
      cases cs with
      | nil => rfl
      | cons p rr =>
        have hp := h p (List.mem_cons_of_mem _ (List.mem_cons_self p rr))
        have hx1 : ¬ p = 'x' := fun e => by subst e; revert hp; decide
        have hx2 : ¬ p = 'X' := fun e => by subst e; revert hp; decide
        simp [hx1, hx2]
    have htake : (c :: cs).takeWhile isHexCh = c :: cs :=
      takeWhile_eq_self_of_all _ _ h
    unfold jsParseIntR
    rw [hdrop]
    simp only [if_neg hplus, if_neg hminus, if_pos rfl]
    simp [hstrip, htake]

theorem joinC_cons (x : List Char) (rest : List (List Char)) (h : rest ≠ []) :
    joinC (x :: rest) = x ++ ':' :: joinC rest := by
  cases rest with
  | nil => exact absurd rfl h
  | cons y ys => rfl

theorem take4_joinC (g1 : List Char) (rest : List (List Char))
    (hg : g1.length = 4) (hrest : rest ≠ []) :
    (joinC (g1 :: rest)).take 4 = g1 := by
  rw [joinC_cons g1 rest hrest]
  exact List.take_left' hg

theorem leadsWith_exists (pat l : List Char) (h : leadsWith pat l = true) :
    ∃ t, l = pat ++ t := by
  induction pat generalizing l with
  | nil => exact ⟨l, rfl⟩
  | cons p ps ih =>
    cases l with
    | nil => exact absurd h (by simp [leadsWith])
    | cons c cs =>
      simp only [leadsWith, Bool.and_eq_true, decide_eq_true_eq] at h
      obtain ⟨rfl, h2⟩ := h
      obtain ⟨t, rfl⟩ := ih cs h2
      exact ⟨t, rfl⟩

theorem hasDC_mem_colon (s : List Char) (h : hasDC s = true) : ':' ∈ s := by
  induction s with
  | nil => exact absurd h (by simp [hasDC])
  | cons c cs ih =>
    cases cs with
    | nil => exact absurd h (by simp [hasDC])
    | cons d rest =>
      simp only [hasDC, Bool.or_eq_true, Bool.and_eq_true, decide_eq_true_eq] at h
      rcases h with ⟨rfl, _⟩ | h
      · exact List.mem_cons_self _ _
      · exact List.mem_cons_of_mem _ (ih (by simpa [hasDC] using h))

theorem splitDC_of_no_dc (s : List Char) (h : hasDC s = false) : splitDC s = [s] := by
  induction s with
  | nil => rfl
  | cons c cs ih =>
    cases cs with
    | nil => rfl
    | cons d rest =>
      simp only [hasDC, Bool.or_eq_false_iff] at h
      simp only [splitDC, h.1, Bool.false_eq_true, if_false, ih h.2]

/-- The common tail of both well-formed cases: once `normalizeIPv6`
yields a segment list headed by a padded, lower-cased hex group whose
value is in the fc00::/7 or fe80::/10 band, `isPrivateIPv6` returns
`true` via the first-segment range check. -/
theorem isPrivateIPv6Core_range (s g1 : List Char) (rest : List (List Char))
    (hg1 : hexGroupOK g1 = true) (hrest : rest ≠ [])
    (hdot : s.contains '.' = false)
    (hnorm : normalizeIPv6Core s =
      some (joinC ((g1 :: rest).map (fun g => (padStart4 g).map lowerCh))))
    (hband : inV6PrivateBand (hexToNat g1)) :
    isPrivateIPv6Core s = .ok true := by
  simp only [hexGroupOK, Bool.and_eq_true, ne_eq, decide_eq_true_eq,
    List.all_eq_true] at hg1
  obtain ⟨⟨hne, hlen⟩, hhex⟩ := hg1
  have hpl : ((padStart4 g1).map lowerCh).length = 4 := by
    simp [padStart4_length g1 hlen]
  have hpne : (padStart4 g1).map lowerCh ≠ [] := by
    intro e
    rw [e] at hpl
    exact absurd hpl (by decide)
  have hphex : ∀ c ∈ (padStart4 g1).map lowerCh, isHexCh c = true :=
    all_hex_map_lowerCh _ (all_hex_padStart4 _ hhex)
  have hparse : jsParseIntR 16 ((padStart4 g1).map lowerCh) = some (hexToNat g1 : ℤ) := by
    rw [jsParseIntR16_hex _ hpne hphex, hexToNat_map_lowerCh _ (all_hex_padStart4 _ hhex),
      hexToNat_padStart4]
  have hrest' : rest.map (fun g => (padStart4 g).map lowerCh) ≠ [] := by
    simpa using hrest
  have htake : (joinC ((g1 :: rest).map (fun g => (padStart4 g).map lowerCh))).take 4 =
      (padStart4 g1).map lowerCh := by
    rw [List.map_cons]
    exact take4_joinC _ _ hpl hrest'
  have hv0 : hexToNat g1 ≠ 0 := by
    rcases hband with ⟨h1, _⟩ | ⟨h1, _⟩ <;> omega
  unfold isPrivateIPv6Core
  rw [hdot]
  simp only [Bool.false_eq_true, if_false]
  rw [hnorm]
  dsimp only
  have hne1 : ¬ (joinC ((g1 :: rest).map (fun g => (padStart4 g).map lowerCh)) = zeroOneStr) := by
    intro e
    have h4 := congrArg (List.take 4) e
    rw [htake] at h4
    have := congrArg (jsParseIntR 16) h4
    rw [hparse] at this
    have h0 : jsParseIntR 16 (zeroOneStr.take 4) = some 0 := by decide
    rw [h0] at this
    injection this with this
    exact hv0 (by exact_mod_cast this)
  have hne2 : ¬ (leadsWith ffffMappedPre
      (joinC ((g1 :: rest).map (fun g => (padStart4 g).map lowerCh))) = true) := by
    intro hlw
    obtain ⟨t, ht⟩ := leadsWith_exists _ _ hlw
    have ht' : joinC ((g1 :: rest).map (fun g => (padStart4 g).map lowerCh)) =
        ffffMappedPre.take 4 ++ (ffffMappedPre.drop 4 ++ t) := by
      rw [← List.append_assoc, List.take_append_drop]
      exact ht
    have h4 : (joinC ((g1 :: rest).map (fun g => (padStart4 g).map lowerCh))).take 4 =
        ffffMappedPre.take 4 := by
      rw [ht']
      exact List.take_left' (by decide)
    rw [htake] at h4
    have := congrArg (jsParseIntR 16) h4
    rw [hparse] at this
    have h0 : jsParseIntR 16 (ffffMappedPre.take 4) = some 0 := by decide
    rw [h0] at this
    injection this with this
    exact hv0 (by exact_mod_cast this)
  rw [if_neg hne1, if_neg hne2, htake, hparse]
  have hhit : v6RangeHit (some (hexToNat g1 : ℤ)) = true := by
    unfold v6RangeHit
    rcases hband with ⟨h1, h2⟩ | ⟨h1, h2⟩ <;>
      simp only [Bool.or_eq_true, Bool.and_eq_true, decide_eq_true_eq] <;>
      [left; right] <;> omega
  rw [hhit]

/-- Any well-formed hex-form IPv6 address whose first normalized 16-bit
segment lies in fc00::/7 or fe80::/10 is classified private. -/
theorem wellFormedHexIPv6_private (s : List Char)
    (hwf : wellFormedHexIPv6 s = true) (hband : inV6PrivateBand (firstSegVal s)) :
    isPrivateIP ⟨s⟩ = .ok true := by
  unfold wellFormedHexIPv6 at hwf
  simp only [Bool.and_eq_true, Bool.or_eq_true] at hwf
  obtain ⟨hchars, hforms⟩ := hwf
  have hcharsm := List.all_eq_true.mp hchars
  have hdotm : '.' ∉ s := by
    intro m
    have := hcharsm _ m
    revert this
    decide
  have hdot : s.contains '.' = false := contains_false_of_not_mem _ _ hdotm
  show isPrivateIPCore s = .ok true
  rcases hforms with hfull | hcomp
  · -- the full eight-group form
    unfold hexIPv6Full at hfull
    simp only [Bool.and_eq_true, Bool.not_eq_true', decide_eq_true_eq] at hfull
    obtain ⟨⟨hdcf, hlen8⟩, hallok⟩ := hfull
    cases hgs : splitCh ':' s with
    | nil => exact absurd hgs (splitCh_ne_nil ':' s)
    | cons g1 rest =>
      rw [hgs] at hlen8 hallok
      have hrest_ne : rest ≠ [] := by
        intro e
        rw [e] at hlen8
        exact absurd hlen8 (by simp)
      have hg1ok : hexGroupOK g1 = true :=
        (List.all_eq_true.mp hallok) g1 (List.mem_cons_self g1 rest)
      have hcolonmem : ':' ∈ s := by
        by_contra hnm
        have := splitCh_of_not_mem ':' s hnm
        rw [hgs] at this
        injection this with h1 h2
        exact hrest_ne h2
      have hfirst : firstSegVal s = hexToNat g1 := by
        unfold firstSegVal firstGroup
        simp only [hdcf, Bool.false_eq_true, if_false, hgs]
        rfl
      have hnorm : normalizeIPv6Core s =
          some (joinC ((g1 :: rest).map (fun g => (padStart4 g).map lowerCh))) := by
        unfold normalizeIPv6Core
        simp only [hdot, hdcf, Bool.false_eq_true, if_false, hgs]
      have h6 := isPrivateIPv6Core_range s g1 rest hg1ok hrest_ne hdot hnorm
        (hfirst ▸ hband)
      unfold isPrivateIPCore
      have hmeta : ¬ s = "169.254.169.254".data := fun e => by
        subst e; revert hcolonmem; decide
      rw [if_neg hmeta, if_pos (contains_true_of_mem _ _ hcolonmem)]
      exact h6
  · -- the compressed form
    unfold hexIPv6Comp at hcomp
    cases hsp : splitDC s with
    | nil => rw [hsp] at hcomp; exact absurd hcomp (by simp)
    | cons l t =>
      cases t with
      | nil => rw [hsp] at hcomp; exact absurd hcomp (by simp)
      | cons r t2 =>
        cases t2 with
        | cons x xs => rw [hsp] at hcomp; exact absurd hcomp (by simp)
        | nil =>
          rw [hsp] at hcomp
          dsimp only at hcomp
          simp only [Bool.and_eq_true, decide_eq_true_eq] at hcomp
          obtain ⟨⟨hlg, hrg⟩, hcount⟩ := hcomp
          have hdc : hasDC s = true := by
            by_contra hn
            have hf : hasDC s = false := Bool.not_eq_true _ ▸ Bool.eq_false_iff.mpr hn
            have := splitDC_of_no_dc s hf
            rw [hsp] at this
            injection this with h1 h2
            exact absurd h2.symm (by simp)
          have hcolonmem := hasDC_mem_colon s hdc
          have hmeta : ¬ s = "169.254.169.254".data := fun e => by
            subst e; revert hcolonmem; decide
          by_cases hl : l = []
          · exfalso
            have hfs : firstSegVal s = 0 := by
              unfold firstSegVal firstGroup
              simp only [hdc, if_true, hsp]
              rw [if_pos hl]
              rfl
            rw [hfs] at hband
            rcases hband with ⟨h1, _⟩ | ⟨h1, _⟩ <;> omega
          · cases hlg' : splitCh ':' l with
            | nil => exact absurd hlg' (splitCh_ne_nil ':' l)
            | cons g1 lrest =>
              rw [if_neg hl, hlg'] at hlg hcount
              have hg1ok : hexGroupOK g1 = true :=
                (List.all_eq_true.mp hlg) g1 (List.mem_cons_self g1 lrest)
              have hfirst : firstSegVal s = hexToNat g1 := by
                unfold firstSegVal firstGroup
                simp only [hdc, if_true, hsp]
                rw [if_neg hl, hlg']
                rfl
              set rgl := (if r = [] then [] else splitCh ':' r) with hrgl
              have hcount' : (g1 :: lrest).length + rgl.length ≤ 7 := hcount
              have hmiss : ¬ ((8 : ℤ) - ((g1 :: lrest).length : ℤ) -
                  (rgl.length : ℤ) < 0) := by
                simp only [List.length_cons] at hcount' ⊢
                push_cast
                omega
              have hrepl_ne : List.replicate ((8 : ℤ) - ((g1 :: lrest).length : ℤ) -
                  (rgl.length : ℤ)).toNat "0000".data ≠ [] := by
                simp only [ne_eq, List.replicate_eq_nil_iff]
                simp only [List.length_cons] at hcount'
                omega
              have hnorm : normalizeIPv6Core s =
                  some (joinC ((g1 :: (lrest ++
                    List.replicate ((8 : ℤ) - ((g1 :: lrest).length : ℤ) -
                      (rgl.length : ℤ)).toNat "0000".data ++ rgl)).map
                      (fun g => (padStart4 g).map lowerCh))) := by
                unfold normalizeIPv6Core
                simp only [hdot, hdc, Bool.false_eq_true, if_false, if_true, hsp,
                  List.getD_cons_zero, List.getD_cons_succ]
                rw [if_neg hl, hlg']
                rw [if_neg hmiss]
                simp only [List.cons_append, List.append_assoc]
              have hrest_ne : (lrest ++
                  List.replicate ((8 : ℤ) - ((g1 :: lrest).length : ℤ) -
                    (rgl.length : ℤ)).toNat "0000".data ++ rgl) ≠ [] := by
                intro e
                rcases List.append_eq_nil.mp e with ⟨e1, _⟩
                rcases List.append_eq_nil.mp e1 with ⟨_, e2⟩
                exact hrepl_ne e2
              have h6 := isPrivateIPv6Core_range s g1 _ hg1ok hrest_ne hdot hnorm
                (hfirst ▸ hband)
              unfold isPrivateIPCore
              rw [if_neg hmeta, if_pos (contains_true_of_mem _ _ hcolonmem)]
              exact h6

/-- A dotted `::ffff:a.b.c.d` string is unwrapped and re-checked against
the IPv4 classifier. -/
theorem v4mapped_unwrap (s1 s2 s3 s4 : List Char)
    (h1 : decOctet s1 = true) (h2 : decOctet s2 = true)
    (h3 : decOctet s3 = true) (h4 : decOctet s4 = true) :
    isPrivateIP ⟨':' :: ':' :: 'f' :: 'f' :: 'f' :: 'f' :: ':' :: dottedQuad s1 s2 s3 s4⟩ =
      .ok (isPrivateIPv4Core (dottedQuad s1 s2 s3 s4)) := by
  have hd1 : ∀ c ∈ s1, isDigitCh c = true := by
    simp only [decOctet, Bool.and_eq_true, List.all_eq_true] at h1; exact h1.2
  have hd2 : ∀ c ∈ s2, isDigitCh c = true := by
    simp only [decOctet, Bool.and_eq_true, List.all_eq_true] at h2; exact h2.2
  have hd3 : ∀ c ∈ s3, isDigitCh c = true := by
    simp only [decOctet, Bool.and_eq_true, List.all_eq_true] at h3; exact h3.2
  have hd4 : ∀ c ∈ s4, isDigitCh c = true := by
    simp only [decOctet, Bool.and_eq_true, List.all_eq_true] at h4; exact h4.2
  have hne1 : s1 ≠ [] := by
    simp only [decOctet, Bool.and_eq_true, ne_eq, decide_eq_true_eq] at h1; exact h1.1
  have hne2 : s2 ≠ [] := by
    simp only [decOctet, Bool.and_eq_true, ne_eq, decide_eq_true_eq] at h2; exact h2.1
  have hne3 : s3 ≠ [] := by
    simp only [decOctet, Bool.and_eq_true, ne_eq, decide_eq_true_eq] at h3; exact h3.1
  have hne4 : s4 ≠ [] := by
    simp only [decOctet, Bool.and_eq_true, ne_eq, decide_eq_true_eq] at h4; exact h4.1
  have hquad : isDotQuadDigits (dottedQuad s1 s2 s3 s4) = true := by
    unfold isDotQuadDigits
    rw [splitCh_dottedQuad s1 s2 s3 s4 hd1 hd2 hd3 hd4]
    simp only [Bool.and_eq_true, ne_eq, decide_eq_true_eq, List.all_eq_true]
    exact ⟨⟨⟨⟨⟨⟨⟨hne1, hd1⟩, hne2⟩, hd2⟩, hne3⟩, hd3⟩, hne4⟩, hd4⟩
  set s : List Char :=
    ':' :: ':' :: 'f' :: 'f' :: 'f' :: 'f' :: ':' :: dottedQuad s1 s2 s3 s4 with hs
  have hcolonmem : ':' ∈ s := List.mem_cons_self _ _
  have hmeta : ¬ s = "169.254.169.254".data := by
    intro e
    rw [e] at hcolonmem
    revert hcolonmem
    decide
  have hdotmem : '.' ∈ s := by
    rw [hs]
    refine List.mem_cons_of_mem _ (List.mem_cons_of_mem _ (List.mem_cons_of_mem _
      (List.mem_cons_of_mem _ (List.mem_cons_of_mem _ (List.mem_cons_of_mem _
        (List.mem_cons_of_mem _ ?_))))))
    unfold dottedQuad
    exact List.mem_append.mpr (Or.inr (List.mem_cons_self _ _))
  have hlead : dcFfffLead s = some (dottedQuad s1 s2 s3 s4) := rfl
  have hfind : v4mappedFind s = some (dottedQuad s1 s2 s3 s4) := by
    rw [hs]
    show v4mappedFind (':' :: (':' :: 'f' :: 'f' :: 'f' :: 'f' :: ':' :: dottedQuad s1 s2 s3 s4)) =
      some (dottedQuad s1 s2 s3 s4)
    rw [v4mappedFind]
    rw [← hs, hlead]
    simp [hquad]
  show isPrivateIPCore s = .ok (isPrivateIPv4Core (dottedQuad s1 s2 s3 s4))
  unfold isPrivateIPCore
  rw [if_neg hmeta, if_pos (contains_true_of_mem _ _ hcolonmem)]
  unfold isPrivateIPv6Core
  rw [contains_true_of_mem _ _ hdotmem]
  simp only [if_true, hfind]

/-- **C2** (amended): `"::1"` is private; every *hex-form* IPv6 address
(full or `::`-compressed, no embedded dotted quad) whose first 16-bit
segment after normalization lies in fc00-fdff or fe80-febf is private;
dotted `::ffff:a.b.c.d` strings are unwrapped and re-checked against the
IPv4 rules (so `::ffff:10.0.0.1`, `::ffff:192.168.1.1`,
`::ffff:169.254.169.254` are private while `::ffff:8.8.8.8` is not),
and likewise for the fully-expanded hex form of IPv4-mapped addresses.
(The original claim's first-segment rule fails on dotted addresses whose
tail matches `::ffff:<quad>`, e.g. `fe80::ffff:1.2.3.4`; see the
counterexample.) -/
theorem C2_ipv6_classifier :
    isPrivateIP "::1" = .ok true ∧
    (∀ s : List Char, wellFormedHexIPv6 s = true → inV6PrivateBand (firstSegVal s) →
      isPrivateIP ⟨s⟩ = .ok true) ∧
    (∀ s1 s2 s3 s4 : List Char, decOctet s1 = true → decOctet s2 = true →
      decOctet s3 = true → decOctet s4 = true →
      isPrivateIP ⟨':' :: ':' :: 'f' :: 'f' :: 'f' :: 'f' :: ':' :: dottedQuad s1 s2 s3 s4⟩ =
        .ok (isPrivateIPv4Core (dottedQuad s1 s2 s3 s4))) ∧
    (isPrivateIP "::ffff:10.0.0.1" = .ok true ∧
     isPrivateIP "::ffff:192.168.1.1" = .ok true ∧
     isPrivateIP "::ffff:169.254.169.254" = .ok true ∧
     isPrivateIP "::ffff:8.8.8.8" = .ok false) ∧
    (isPrivateIP "0000:0000:0000:0000:0000:ffff:0a00:0001" = .ok true ∧
     isPrivateIP "0000:0000:0000:0000:0000:ffff:0808:0808" = .ok false) :=
  ⟨by decide, wellFormedHexIPv6_private, v4mapped_unwrap,
    ⟨by decide, by decide, by decide, by decide⟩, ⟨by decide, by decide⟩⟩

/-- **C2 counterexample**: `fe80::ffff:1.2.3.4` is a well-formed IPv6
address whose first 16-bit segment after normalization is `fe80`
(link-local, fe80::/10), so the claim requires `true`; but the
unanchored IPv4-mapped regex strips the `::ffff:1.2.3.4` tail and
classifies only `1.2.3.4`, returning `false`.  The same address in pure
hex form (`fe80::ffff:102:304`) is classified `true`. -/
theorem C2_ipv6_classifier_counterexample :
    isPrivateIP "fe80::ffff:1.2.3.4" = .ok false ∧
    isPrivateIP "fe80::ffff:102:304" = .ok true := by decide

/-- Witness: C2's amended theorem applied at concrete inputs. -/
theorem C2_ipv6_classifier_witness :
    isPrivateIP "fc00::1" = .ok true ∧ isPrivateIP "::ffff:10.0.0.1" = .ok true := by
  constructor
  · exact C2_ipv6_classifier.2.1 "fc00::1".data (by decide) (Or.inl ⟨by decide, by decide⟩)
  · exact (C2_ipv6_classifier.2.2.1 "10".data "0".data "0".data "1".data
      (by decide) (by decide) (by decide) (by decide)).trans (by decide)

/-! ## Claims C4 and C10: the target resolver -/

/-- The code's notion of an IP-literal hostname (either regex matches). -/
def isIpLiteralHost (h : String) : Bool := ipv4LitTest h.data || ipv6LitTest h.data

/-- A DNS lookup that throws (`none`) or returns no records counts as a
failure. -/
def dnsFails (dns : String → Option (List String)) (h : String) : Bool :=
  match dns h with
  | some (_ :: _) => false
  | _ => true

/-- The IP string the resolver submits to the classifier, when it reaches
classification: the literal host, the bracket-stripped IPv6 literal, or
the first resolved record. -/
def candidateIp (parse : String → Option URLParts)
    (dns4 dns6 : String → Option (List String)) (url : String) : Option String :=
  match parse url with
  | none => none
  | some u =>
    if u.protocol ≠ "http:" && u.protocol ≠ "https:" then none
    else if BLOCKED_HOSTNAMES.contains (lowerStr u.hostname) then none
    else if ipv4LitTest u.hostname.data then some u.hostname
    else if ipv6LitTest u.hostname.data then some ⟨stripBrackets u.hostname.data⟩
    else
      match dns4 u.hostname with
      | some (a :: _) => some a
      | _ =>
        match dns6 u.hostname with
        | some (a :: _) => some a
        | _ => none

/-- Master case analysis: `resolveAndValidate` in terms of the parse
result, the guard conditions, and the candidate IP. -/
theorem resolveAndValidate_cases (parse : String → Option URLParts)
    (dns4 dns6 : String → Option (List String)) (url : String) :
    resolveAndValidate parse dns4 dns6 url =
      match parse url with
      | none => .error "Invalid URL"
      | some u =>
        if u.protocol ≠ "http:" && u.protocol ≠ "https:" then
          .error "Only http and https protocols are allowed"
        else if BLOCKED_HOSTNAMES.contains (lowerStr u.hostname) then
          .error "Hostname is blocked"
        else
          match candidateIp parse dns4 dns6 url with
          | none => .error "DNS resolution failed"
          | some ip =>
            match isPrivateIPCore ip.data with
            | .error e => .error e
            | .ok true => .error "URL resolves to a private/internal IP address"
            | .ok false => .ok (u.hostname, ip) := by
  unfold resolveAndValidate candidateIp
  cases hp : parse url with
  | none => rfl
  | some u =>
    dsimp only
    by_cases hpr : ¬u.protocol = "http:" ∧ ¬u.protocol = "https:"
    · simp [hpr]
    · by_cases hbl : lowerStr u.hostname ∈ BLOCKED_HOSTNAMES
      · simp [hpr, hbl]
      · by_cases h4 : ipv4LitTest u.hostname.data = true
        · simp [hpr, hbl, h4]
        · by_cases h6 : ipv6LitTest u.hostname.data = true
          · simp [hpr, hbl, h4, h6]
          · cases hd4 : dns4 u.hostname with
            | none =>
              cases hd6 : dns6 u.hostname with
              | none => simp [hpr, hbl, h4, h6, hd4, hd6]
              | some l6 => cases l6 <;> simp [hpr, hbl, h4, h6, hd4, hd6]
            | some l4 =>
              cases l4 with
              | nil =>
                cases hd6 : dns6 u.hostname with
                | none => simp [hpr, hbl, h4, h6, hd4, hd6]
                | some l6 => cases l6 <;> simp [hpr, hbl, h4, h6, hd4, hd6]
              | cons a rest => simp [hpr, hbl, h4, h6, hd4]

/-- **C10**: an http/https URL whose hostname is a nonempty run of
hexadecimal characters (hence dot-free) is matched by the IPv6-literal
regex, passed directly to the classifier without any DNS lookup, fails
four-octet parsing there, and is rejected as private — for every DNS
oracle the result is the private-address error. -/
theorem C10_hex_hostname_rejected (parse : String → Option URLParts)
    (dns4 dns6 : String → Option (List String)) (url : String) (u : URLParts)
    (hp : parse url = some u)
    (hproto : u.protocol = "http:" ∨ u.protocol = "https:")
    (hne : u.hostname.data ≠ [])
    (hhex : ∀ c ∈ u.hostname.data, isHexCh c = true) :
    resolveAndValidate parse dns4 dns6 url =
      .error "URL resolves to a private/internal IP address" := by
  have hdot : '.' ∉ u.hostname.data := fun m => absurd (hhex _ m) (by decide)
  have hcolon : ':' ∉ u.hostname.data := fun m => absurd (hhex _ m) (by decide)
  have hpr : ¬ ((u.protocol ≠ "http:" && u.protocol ≠ "https:") = true) := by
    rcases hproto with h | h <;> simp [h]
  have hlowhex : ∀ c ∈ (lowerStr u.hostname).data, isHexCh c = true := by
    intro c m
    rcases List.mem_map.mp m with ⟨x, hx, rfl⟩
    exact (lowerCh_hex x (hhex x hx)).1
  have hneq : ∀ t : String, (∃ c, c ∈ t.data ∧ isHexCh c = false) →
      ¬ lowerStr u.hostname = t := by
    rintro t ⟨c, hcm, hcx⟩ e
    rw [e] at hlowhex
    exact absurd (hlowhex c hcm) (by rw [hcx]; exact Bool.false_ne_true)
  have n1 : ¬ lowerStr u.hostname = "localhost" := hneq _ ⟨'l', by decide, by decide⟩
  have n2 : ¬ lowerStr u.hostname = "metadata.google.internal" :=
    hneq _ ⟨'m', by decide, by decide⟩
  have n3 : ¬ lowerStr u.hostname = "metadata.goog" := hneq _ ⟨'m', by decide, by decide⟩
  have hbl : BLOCKED_HOSTNAMES.contains (lowerStr u.hostname) = false := by
    have hm : lowerStr u.hostname ∉ BLOCKED_HOSTNAMES := by
      intro m
      simp only [BLOCKED_HOSTNAMES, List.mem_cons, List.not_mem_nil, or_false] at m
      rcases m with e | e | e
      exacts [n1 e, n2 e, n3 e]
    simpa [List.contains, List.elem_eq_mem] using hm
  have h4 : ipv4LitTest u.hostname.data = false := by
    unfold ipv4LitTest
    rw [splitCh_of_not_mem '.' _ hdot]
  have hstrip : stripBrackets u.hostname.data = u.hostname.data := by
    cases hh : u.hostname.data with
    | nil => exact absurd hh hne
    | cons c cs =>
      have hc : ¬ c = '[' := fun e => by
        subst e
        exact absurd (hhex _ (hh ▸ List.mem_cons_self _ _)) (by decide)
      unfold stripBrackets
      dsimp only
      rw [if_neg hc]
      cases hlast : (c :: cs).getLast? with
      | none => simp at hlast
      | some d =>
        have hdm : d ∈ c :: cs := by
          have := List.getLast?_eq_getLast (c :: cs) (by simp)
          rw [hlast] at this
          injection this with this
          rw [this]
          exact List.getLast_mem _
        have hd : ¬ d = ']' := fun e => by
          subst e
          exact absurd (hhex _ (hh ▸ hdm)) (by decide)
        dsimp only
        rw [if_neg hd]
  have h6 : ipv6LitTest u.hostname.data = true := by
    unfold ipv6LitTest
    rw [hstrip]
    simp only [Bool.and_eq_true, ne_eq, decide_eq_true_eq, List.all_eq_true]
    refine ⟨by simpa using hne, ?_⟩
    intro c m
    simp [hhex c m]
  have hmeta : ¬ u.hostname.data = "169.254.169.254".data := by
    intro e
    exact hdot (e ▸ (by decide : '.' ∈ "169.254.169.254".data))
  have hccontains : u.hostname.data.contains ':' = false :=
    contains_false_of_not_mem _ _ hcolon
  have hpriv : isPrivateIPCore u.hostname.data = .ok true := by
    unfold isPrivateIPCore
    rw [if_neg hmeta, hccontains]
    simp only [Bool.false_eq_true, if_false]
    unfold isPrivateIPv4Core
    rw [splitCh_of_not_mem '.' _ hdot]
    simp
  unfold resolveAndValidate
  rw [hp]
  dsimp only
  rw [if_neg hpr]
  rw [if_neg (by rw [hbl]; exact Bool.false_ne_true)]
  rw [if_neg (by rw [h4]; exact Bool.false_ne_true), if_pos h6]
  dsimp only
  rw [hstrip, hpriv]

/-- Witness: C10 applied to the concrete URL `http://beef/` under a DNS
oracle that would resolve anything — the resolver rejects it without
consulting DNS. -/
theorem C10_hex_hostname_rejected_witness :
    resolveAndValidate
      (fun s => if s = "http://beef/" then some ⟨"http:", "beef"⟩ else none)
      (fun _ => some ["93.184.216.34"]) (fun _ => some ["2606:4700::1111"])
      "http://beef/" = .error "URL resolves to a private/internal IP address" :=
  C10_hex_hostname_rejected _ _ _ _ ⟨"http:", "beef"⟩ (by decide) (Or.inl rfl)
    (by decide) (by decide)

/-- The resolver contract exactly as claim C4 enumerates it: each
failure class with its distinct message, otherwise the hostname and the
classified IP.  (Spec-side mirror, to be compared with
`resolveAndValidate`.) -/
def resolverClaimSpec (parse : String → Option URLParts)
    (dns4 dns6 : String → Option (List String)) (url : String) :
    Except String (String × String) :=
  match parse url with
  | none => .error "Invalid URL"
  | some u =>
    if ¬ (u.protocol = "http:" ∨ u.protocol = "https:") then
      .error "Only http and https protocols are allowed"
    else if lowerStr u.hostname ∈ BLOCKED_HOSTNAMES then
      .error "Hostname is blocked"
    else
      match candidateIp parse dns4 dns6 url with
      | none => .error "DNS resolution failed"
      | some ip =>
        if isPrivateIPCore ip.data = .ok true then
          .error "URL resolves to a private/internal IP address"
        else .ok (u.hostname, ip)

/-- **C4**: provided the platform guarantee that the classifier does not
throw on the candidate IP (true of every hostname the WHATWG URL parser
and the DNS resolver can produce), `resolveAndValidate` coincides with
the claim's contract: it throws exactly on the five enumerated failure
classes, each with its own distinct message, and otherwise returns the
URL's hostname with the classified IP; and — under the earlier guards —
the no-candidate case is exactly "not an IP literal and both the A and
AAAA lookups fail". -/
theorem C4_resolver_contract (parse : String → Option URLParts)
    (dns4 dns6 : String → Option (List String)) (url : String)
    (hsafe : ∀ ip : String, candidateIp parse dns4 dns6 url = some ip →
      ∀ e : String, isPrivateIPCore ip.data ≠ .error e) :
    resolveAndValidate parse dns4 dns6 url = resolverClaimSpec parse dns4 dns6 url ∧
    (∀ u, parse url = some u → (u.protocol = "http:" ∨ u.protocol = "https:") →
      lowerStr u.hostname ∉ BLOCKED_HOSTNAMES →
      (candidateIp parse dns4 dns6 url = none ↔
        isIpLiteralHost u.hostname = false ∧ dnsFails dns4 u.hostname = true ∧
          dnsFails dns6 u.hostname = true)) ∧
    ["Invalid URL", "Only http and https protocols are allowed", "Hostname is blocked",
      "DNS resolution failed",
      "URL resolves to a private/internal IP address"].Pairwise (· ≠ ·) := by
  refine ⟨?_, ?_, by decide⟩
  · rw [resolveAndValidate_cases]
    unfold resolverClaimSpec
    cases hp : parse url with
    | none => rfl
    | some u =>
      dsimp only
      by_cases hpr : ¬u.protocol = "http:" ∧ ¬u.protocol = "https:"
      · have h1 : (decide (u.protocol ≠ "http:") && decide (u.protocol ≠ "https:")) = true := by
          simp [hpr.1, hpr.2]
        have h2 : ¬ (u.protocol = "http:" ∨ u.protocol = "https:") := by
          rintro (e | e)
          exacts [hpr.1 e, hpr.2 e]
        rw [if_pos h1, if_pos h2]
      · have h1 : ¬ ((decide (u.protocol ≠ "http:") && decide (u.protocol ≠ "https:")) = true) := by
          simp only [Bool.and_eq_true, decide_eq_true_eq]
          exact fun hh => hpr ⟨hh.1, hh.2⟩
        have h2 : ¬¬ (u.protocol = "http:" ∨ u.protocol = "https:") := by
          intro hn
          exact hpr ⟨fun e => hn (Or.inl e), fun e => hn (Or.inr e)⟩
        rw [if_neg h1, if_neg h2]
        by_cases hbl : lowerStr u.hostname ∈ BLOCKED_HOSTNAMES
        · have hblc : BLOCKED_HOSTNAMES.contains (lowerStr u.hostname) = true := by
            simpa [List.contains, List.elem_eq_mem] using hbl
          rw [if_pos hblc, if_pos hbl]
        · have hblc : ¬ (BLOCKED_HOSTNAMES.contains (lowerStr u.hostname) = true) := by
            simpa [List.contains, List.elem_eq_mem] using hbl
          rw [if_neg hblc, if_neg hbl]
          cases hc : candidateIp parse dns4 dns6 url with
          | none => rfl
          | some ip =>
            dsimp only
            cases hcl : isPrivateIPCore ip.data with
            | error e => exact absurd hcl (hsafe ip hc e)
            | ok b =>
              cases b with
              | true => simp
              | false => simp
  · intro u hp hproto hbl
    unfold candidateIp
    rw [hp]
    dsimp only
    have h1 : ¬ ((decide (u.protocol ≠ "http:") && decide (u.protocol ≠ "https:")) = true) := by
      simp only [Bool.and_eq_true, decide_eq_true_eq]
      rcases hproto with e | e
      · exact fun hh => hh.1 e
      · exact fun hh => hh.2 e
    have hblc : ¬ (BLOCKED_HOSTNAMES.contains (lowerStr u.hostname) = true) := by
      simpa [List.contains, List.elem_eq_mem] using hbl
    rw [if_neg h1, if_neg hblc]
    by_cases h4 : ipv4LitTest u.hostname.data = true
    · simp [h4, isIpLiteralHost]
    · by_cases h6 : ipv6LitTest u.hostname.data = true
      · simp [h4, h6, isIpLiteralHost]
      · simp only [h4, h6, Bool.false_eq_true, if_false]
        have hlit : isIpLiteralHost u.hostname = false := by
          simp only [isIpLiteralHost, Bool.or_eq_false_iff]
          exact ⟨Bool.eq_false_iff.mpr h4, Bool.eq_false_iff.mpr h6⟩
        cases hd4 : dns4 u.hostname with
        | none =>
          cases hd6 : dns6 u.hostname with
          | none => simp [hlit, dnsFails, hd4, hd6]
          | some l6 => cases l6 <;> simp [hlit, dnsFails, hd4, hd6]
        | some l4 =>
          cases l4 with
          | nil =>
            cases hd6 : dns6 u.hostname with
            | none => simp [hlit, dnsFails, hd4, hd6]
            | some l6 => cases l6 <;> simp [hlit, dnsFails, hd4, hd6]
          | cons a rest => simp [hlit, dnsFails, hd4]

def testParseLocalhost : String → Option URLParts :=
  fun s => if s = "http://localhost/" then some ⟨"http:", "localhost"⟩ else none

def testNoDns : String → Option (List String) := fun _ => none

/-- Witness: C4 instantiated at a concrete parser and DNS oracle. -/
theorem C4_resolver_contract_witness :
    resolveAndValidate testParseLocalhost testNoDns testNoDns "http://localhost/" =
      resolverClaimSpec testParseLocalhost testNoDns testNoDns "http://localhost/" := by
  have hsafe : ∀ ip : String,
      candidateIp testParseLocalhost testNoDns testNoDns "http://localhost/" = some ip →
      ∀ e : String, isPrivateIPCore ip.data ≠ .error e := by
    intro ip h e
    have hc : candidateIp testParseLocalhost testNoDns testNoDns "http://localhost/" = none := by
      decide
    rw [hc] at h
    exact Option.noConfusion h
  exact (C4_resolver_contract testParseLocalhost testNoDns testNoDns "http://localhost/" hsafe).1

/-! ## Claims C3, C6, C7, C8, C9: the relay executor -/

/-- A URL that has passed the checks the executor runs before fetching:
successful SSRF validation and (when an allowlist is configured) the
domain allowlist. -/
def urlValidated (cfg : ProxyCfg) (or : OraclesM) (u : String) : Prop :=
  (∃ v, resolveAndValidate or.parse or.dns4 or.dns6 u = .ok v) ∧
  (cfg.proxyAllowedDomains = [] ∨ domainAllowed cfg or.parse u = true)

/-- Loop invariant: every fetch the redirect loop issues is to a URL
that passed `resolveAndValidate` and the allowlist. -/
theorem redirectLoop_validated (cfg : ProxyCfg) (or : OraclesM)
    (outH : List (String × String)) (m0 : String) (b0 : Option String) :
    ∀ fuel url count, urlValidated cfg or url →
      ∀ call ∈ (redirectLoop cfg or outH m0 b0 fuel url count).1,
        urlValidated cfg or call.url := by
  intro fuel
  induction fuel with
  | zero =>
    intro url count hval call hmem
    simp [redirectLoop] at hmem
  | succ n ih =>
    intro url count hval call hmem
    simp only [redirectLoop] at hmem
    split at hmem
    · -- abort error
      simp only [List.mem_singleton] at hmem
      subst hmem
      exact hval
    · simp only [List.mem_singleton] at hmem
      subst hmem
      exact hval
    · rename_i resp hfetch
      split at hmem
      · split at hmem
        · simp only [List.mem_singleton] at hmem
          subst hmem
          exact hval
        · rename_i loc hloc
          split at hmem
          · simp only [List.mem_singleton] at hmem
            subst hmem
            exact hval
          · rename_i rurl hrel
            split at hmem
            · simp only [List.mem_singleton] at hmem
              subst hmem
              exact hval
            · rename_i v hok
              split at hmem
              · simp only [List.mem_singleton] at hmem
                subst hmem
                exact hval
              · rename_i hallow
                split at hmem
                · simp only [List.mem_singleton] at hmem
                  subst hmem
                  exact hval
                · simp only [List.mem_cons] at hmem
                  rcases hmem with rfl | hmem
                  · exact hval
                  · refine ih rurl (count + 1) ⟨⟨v, hok⟩, ?_⟩ call hmem
                    by_cases he : cfg.proxyAllowedDomains = []
                    · exact Or.inl he
                    · right
                      by_cases hd : domainAllowed cfg or.parse rurl = true
                      · exact hd
                      · exact absurd (by simp [he, hd] :
                          (cfg.proxyAllowedDomains ≠ [] &&
                            !domainAllowed cfg or.parse rurl) = true) hallow
      · simp only [List.mem_singleton] at hmem
        subst hmem
        exact hval

/-- The loop issues at most `fuel` fetches. -/
theorem redirectLoop_length (cfg : ProxyCfg) (or : OraclesM)
    (outH : List (String × String)) (m0 : String) (b0 : Option String) :
    ∀ fuel url count,
      (redirectLoop cfg or outH m0 b0 fuel url count).1.length ≤ fuel := by
  intro fuel
  induction fuel with
  | zero => intro url count; simp [redirectLoop]
  | succ n ih =>
    intro url count
    simp only [redirectLoop]
    split
    · simp
    · simp
    · split
      · split
        · simp
        · split
          · simp
          · split
            · simp
            · split
              · simp
              · split
                · simp
                · simp only [List.length_cons]
                  exact Nat.succ_le_succ (ih _ _)
      · simp

/-- The first-call record of a hop at `count`, as produced by the loop
body. -/
theorem loopCall0_spec (url m0 : String) (b0 : Option String)
    (outH : List (String × String)) (count j : Nat) (call : FetchCallM)
    (h : ([({ url := url,
              method := (if count = 0 then m0 else "GET"),
              headers := outH,
              body := (if count = 0 && b0.isSome && !(m0 = "GET" || m0 = "HEAD") then b0
                       else none) } : FetchCallM)]).get? j = some call) :
    call.method = (if count + j = 0 then m0 else "GET") ∧
    call.body = (if count + j = 0 then
      (if b0.isSome && !(m0 = "GET" || m0 = "HEAD") then b0 else none) else none) ∧
    call.headers = outH := by
  cases j with
  | zero =>
    simp only [List.get?] at h
    injection h with h
    subst h
    refine ⟨by simp, ?_, rfl⟩
    by_cases hc : count = 0 <;> simp [hc, Bool.and_assoc]
  | succ m => exact Option.noConfusion h

/-- Each call in the loop's trace: the hop at overall position
`count + j` uses the original method and body only at position 0 and a
bare GET afterwards. -/
theorem redirectLoop_calls (cfg : ProxyCfg) (or : OraclesM)
    (outH : List (String × String)) (m0 : String) (b0 : Option String) :
    ∀ fuel url count j call,
      (redirectLoop cfg or outH m0 b0 fuel url count).1.get? j = some call →
      call.method = (if count + j = 0 then m0 else "GET") ∧
      call.body = (if count + j = 0 then
        (if b0.isSome && !(m0 = "GET" || m0 = "HEAD") then b0 else none) else none) ∧
      call.headers = outH := by
  intro fuel
  induction fuel with
  | zero => intro url count j call h; simp [redirectLoop] at h
  | succ n ih =>
    intro url count j call h
    simp only [redirectLoop] at h
    split at h
    · exact loopCall0_spec url m0 b0 outH count j call h
    · exact loopCall0_spec url m0 b0 outH count j call h
    · split at h
      · split at h
        · exact loopCall0_spec url m0 b0 outH count j call h
        · split at h
          · exact loopCall0_spec url m0 b0 outH count j call h
          · split at h
            · exact loopCall0_spec url m0 b0 outH count j call h
            · split at h
              · exact loopCall0_spec url m0 b0 outH count j call h
              · split at h
                · exact loopCall0_spec url m0 b0 outH count j call h
                · cases j with
                  | zero =>
                    simp only [List.get?] at h
                    injection h with h
                    subst h
                    refine ⟨by simp, ?_, rfl⟩
                    by_cases hc : count = 0 <;> simp [hc, Bool.and_assoc]
                  | succ m =>
                    simp only [List.get?] at h
                    have hrec := ih _ (count + 1) m call h
                    have hm1 : count + 1 + m ≠ 0 := by omega
                    have hm2 : count + Nat.succ m ≠ 0 := by omega
                    refine ⟨?_, ?_, hrec.2.2⟩
                    · rw [hrec.1]
                      simp [hm1, hm2]
                    · rw [hrec.2.1]
                      simp [hm1, hm2]
      · exact loopCall0_spec url m0 b0 outH count j call h

theorem relayRespond_trace (cfg : ProxyCfg) (or : OraclesM)
    (lp : List FetchCallM × LoopOut) :
    (relayRespond cfg or lp).2.fetches = lp.1 := by
  unfold relayRespond
  split
  · rfl
  · split
    · rfl
    · split
      · rfl
      · dsimp only
        split <;> rfl

/-- The handler's fetch trace is either empty (an early rejection) or
exactly the loop's trace, entered only after the initial URL passed the
allowlist and `resolveAndValidate`. -/
theorem handleProxy_fetches (cfg : ProxyCfg) (or : OraclesM) (req : ProxyReqM) :
    (handleProxy cfg or req).2.fetches = [] ∨
    ((handleProxy cfg or req).2.fetches = (relayLoopOf cfg or req).1 ∧
      urlValidated cfg or req.url) := by
  unfold handleProxy
  split
  · exact Or.inl rfl
  · split
    · exact Or.inl rfl
    · rename_i h1 h2
      split
      · exact Or.inl rfl
      · rename_i v hok
        right
        refine ⟨relayRespond_trace cfg or _, ⟨v, hok⟩, ?_⟩
        by_cases he : cfg.proxyAllowedDomains = []
        · exact Or.inl he
        · right
          by_cases hd : domainAllowed cfg or.parse req.url = true
          · exact hd
          · exact absurd (by simp [he, hd]) h2

/-- The admission conditions of the handler (steps 5-6 reached with the
allowlist satisfied). -/
def relayAdmitted (cfg : ProxyCfg) (or : OraclesM) (req : ProxyReqM) : Prop :=
  (cfg.proxyAllowedDomains ≠ [] && (or.parse req.url).isNone) = false ∧
  (cfg.proxyAllowedDomains ≠ [] && !domainAllowed cfg or.parse req.url) = false

theorem handleProxy_admitted (cfg : ProxyCfg) (or : OraclesM) (req : ProxyReqM)
    (v : String × String) (hA : relayAdmitted cfg or req)
    (hV : resolveAndValidate or.parse or.dns4 or.dns6 req.url = .ok v) :
    handleProxy cfg or req = relayRespond cfg or (relayLoopOf cfg or req) := by
  unfold handleProxy
  rw [hA.1, hA.2, hV]
  simp

theorem readChunks_consumed_le (cap : Nat) :
    ∀ (t : Nat) (chunks : List (List Nat)),
      (readChunks cap t chunks).2 ≤ chunks.length := by
  intro t chunks
  induction chunks generalizing t with
  | nil => simp [readChunks]
  | cons ch rest ih =>
    simp only [readChunks]
    split
    · simp
    · simp only [List.length_cons]
      exact Nat.succ_le_succ (ih _)

theorem readChunks_ok_total (cap : Nat) :
    ∀ (t : Nat) (chunks : List (List Nat)),
      (readChunks cap t chunks).1 = true →
      chunks = [] ∨ t + sumLens chunks ≤ cap := by
  intro t chunks
  induction chunks generalizing t with
  | nil => intro _; exact Or.inl rfl
  | cons ch rest ih =>
    intro h
    simp only [readChunks] at h
    split at h
    · exact absurd h (by simp)
    · rename_i hle
      right
      rcases ih (t + ch.length) h with he | hb
      · subst he
        simp only [sumLens, List.map_cons, List.map_nil, List.sum_cons, List.sum_nil]
        omega
      · simp only [sumLens, List.map_cons, List.sum_cons] at hb ⊢
        omega

/-- A completed streamed read never accumulates more than the cap. -/
theorem readChunks_ok_bound (cap : Nat) (chunks : List (List Nat))
    (h : (readChunks cap 0 chunks).1 = true) : sumLens chunks ≤ cap := by
  rcases readChunks_ok_total cap 0 chunks h with he | hb
  · subst he
    simp [sumLens]
  · omega

/-! Concrete configurations and oracles used for the closed scenario
conjuncts and witnesses. -/

def cfgTest : ProxyCfg := ⟨[], 1000, 3⟩

def parsePub : String → Option URLParts := fun s =>
  if s = "http://pub.example/" then some ⟨"http:", "pub.example"⟩
  else if s = "http://10.0.0.1/" then some ⟨"http:", "10.0.0.1"⟩ else none

def dnsPub : String → Option (List String) := fun h =>
  if h = "pub.example" then some ["93.184.216.34"] else none

/-- A public target whose response redirects to a private address. -/
def oraclesRedirPriv : OraclesM :=
  { parse := parsePub, dns4 := dnsPub, dns6 := fun _ => none
    resolveRel := fun loc _ => some loc
    fetch := fun _ _ => .ok ⟨301, "Moved Permanently",
      [("Location", "http://10.0.0.1/")], none⟩
    jsonParses := fun _ => false, decode := fun _ => "" }

/-- A public target that redirects to itself forever. -/
def oraclesRedirLoop : OraclesM :=
  { parse := parsePub, dns4 := dnsPub, dns6 := fun _ => none
    resolveRel := fun loc _ => some loc
    fetch := fun _ _ => .ok ⟨301, "Moved Permanently",
      [("Location", "http://pub.example/")], none⟩
    jsonParses := fun _ => false, decode := fun _ => "" }

/-- A JSON-content-type response whose body does not parse as JSON. -/
def oraclesBadJson : OraclesM :=
  { parse := parsePub, dns4 := dnsPub, dns6 := fun _ => none
    resolveRel := fun loc _ => some loc
    fetch := fun _ _ => .ok ⟨200, "OK",
      [("Content-Type", "application/json"), ("Set-Cookie", "a=b"), ("X-Test", "1")],
      some [[110, 111]]⟩
    jsonParses := fun _ => false, decode := fun _ => "no" }

/-- A response declaring a Content-Length above the cap. -/
def oraclesBigCL : OraclesM :=
  { parse := parsePub, dns4 := dnsPub, dns6 := fun _ => none
    resolveRel := fun loc _ => some loc
    fetch := fun _ _ => .ok ⟨200, "OK", [("Content-Length", "5000")], some [[1]]⟩
    jsonParses := fun _ => false, decode := fun _ => "x" }

/-- A response that streams more bytes than the cap. -/
def oraclesBigStream : OraclesM :=
  { parse := parsePub, dns4 := dnsPub, dns6 := fun _ => none
    resolveRel := fun loc _ => some loc
    fetch := fun _ _ => .ok ⟨200, "OK", [],
      some [[1, 2, 3, 4, 5, 6], [1, 2, 3, 4, 5, 6]]⟩
    jsonParses := fun _ => false, decode := fun _ => "x" }

/-- A configuration with a tiny response-size cap. -/
def cfgSmall : ProxyCfg := ⟨[], 10, 3⟩

def reqPub : ProxyReqM := ⟨"http://pub.example/", none, none, none, none, none⟩

def reqPost : ProxyReqM := ⟨"http://pub.example/", some "post", some "x", none, none, none⟩

/-- C3: every fetch the relay executor issues — the initial one and every
redirect hop — is to a URL that passed `resolveAndValidate` and the
domain allowlist; and concretely, a public target whose response
redirects to the private address 10.0.0.1 ends with status 400 and the
message "Redirect blocked: URL resolves to a private/internal IP
address", after exactly one fetch (the redirect target is never
fetched). -/
theorem C3_redirect_revalidation :
    (∀ (cfg : ProxyCfg) (or : OraclesM) (req : ProxyReqM) (call : FetchCallM),
      call ∈ (handleProxy cfg or req).2.fetches →
      (∃ v, resolveAndValidate or.parse or.dns4 or.dns6 call.url = .ok v) ∧
      (cfg.proxyAllowedDomains = [] ∨ domainAllowed cfg or.parse call.url = true)) ∧
    (handleProxy cfgTest oraclesRedirPriv reqPub).1 =
      (400, .errJson "Redirect blocked: URL resolves to a private/internal IP address") ∧
    (handleProxy cfgTest oraclesRedirPriv reqPub).2.fetches.length = 1 := by
  refine ⟨?_, by decide, by decide⟩
  intro cfg or req call hmem
  rcases handleProxy_fetches cfg or req with h | ⟨h, hval⟩
  · rw [h] at hmem
    exact absurd hmem (List.not_mem_nil call)
  · rw [h] at hmem
    exact redirectLoop_validated cfg or (buildOutgoingHeaders req) (methodOf req)
      req.jsonBody (cfg.proxyMaxRedirects + 1) req.url 0 hval call hmem

theorem C3_redirect_revalidation_witness :
    (∃ v, resolveAndValidate oraclesRedirPriv.parse oraclesRedirPriv.dns4
        oraclesRedirPriv.dns6 "http://pub.example/" = .ok v) ∧
    (cfgTest.proxyAllowedDomains = [] ∨
      domainAllowed cfgTest oraclesRedirPriv.parse "http://pub.example/" = true) :=
  C3_redirect_revalidation.1 cfgTest oraclesRedirPriv reqPub
    { url := "http://pub.example/", method := "GET",
      headers := [("User-Agent", "ZenBin-Proxy/1.0")], body := none }
    (by decide)

/-- C7: the relay executor issues at most `proxyMaxRedirects + 1` fetches
on any call; and concretely, against a server that redirects to itself
forever with limit 3 the call ends with status 502 and the message
"Too many redirects (max: 3)" after exactly 4 fetches. -/
theorem C7_redirect_bound :
    (∀ (cfg : ProxyCfg) (or : OraclesM) (req : ProxyReqM),
      (handleProxy cfg or req).2.fetches.length ≤ cfg.proxyMaxRedirects + 1) ∧
    (handleProxy cfgTest oraclesRedirLoop reqPub).1 =
      (502, .errJson "Too many redirects (max: 3)") ∧
    (handleProxy cfgTest oraclesRedirLoop reqPub).2.fetches.length = 4 := by
  refine ⟨?_, by decide, by decide⟩
  intro cfg or req
  rcases handleProxy_fetches cfg or req with h | ⟨h, _⟩
  · rw [h]
    simp
  · rw [h]
    exact redirectLoop_length cfg or (buildOutgoingHeaders req) (methodOf req)
      req.jsonBody (cfg.proxyMaxRedirects + 1) req.url 0

/-- C8: in the fetch trace of any relay call, the fetch at index 0 uses
the request's (upper-cased, defaulted) method and carries the JSON body
exactly when the body is present and the method is neither GET nor HEAD,
while every later fetch (a redirect hop, for any redirect status) uses
method GET and carries no body. -/
theorem C8_redirect_method_body :
    ∀ (cfg : ProxyCfg) (or : OraclesM) (req : ProxyReqM) (j : Nat) (call : FetchCallM),
      (handleProxy cfg or req).2.fetches.get? j = some call →
      call.headers = buildOutgoingHeaders req ∧
      (j = 0 →
        call.method = methodOf req ∧
        call.body = (if req.jsonBody.isSome &&
            !(methodOf req = "GET" || methodOf req = "HEAD")
          then req.jsonBody else none)) ∧
      (j ≠ 0 → call.method = "GET" ∧ call.body = none) := by
  intro cfg or req j call h
  rcases handleProxy_fetches cfg or req with he | ⟨he, _⟩
  · rw [he] at h
    simp at h
  · rw [he] at h
    have hc := redirectLoop_calls cfg or (buildOutgoingHeaders req) (methodOf req)
      req.jsonBody (cfg.proxyMaxRedirects + 1) req.url 0 j call h
    refine ⟨hc.2.2, ?_, ?_⟩
    · intro hj
      subst hj
      exact ⟨by simpa using hc.1, by simpa using hc.2.1⟩
    · intro hj
      have h0 : ¬ (0 + j = 0) := by omega
      exact ⟨by rw [hc.1, if_neg h0], by rw [hc.2.1, if_neg h0]⟩

theorem C8_redirect_method_body_witness :
    ({ url := "http://pub.example/", method := "GET",
       headers := [("User-Agent", "ZenBin-Proxy/1.0"),
         ("Content-Type", "application/json")],
       body := none } : FetchCallM).method = "GET" ∧
    ({ url := "http://pub.example/", method := "GET",
       headers := [("User-Agent", "ZenBin-Proxy/1.0"),
         ("Content-Type", "application/json")],
       body := none } : FetchCallM).body = none := by
  have h := C8_redirect_method_body cfgTest oraclesRedirLoop reqPost 1
    { url := "http://pub.example/", method := "GET",
      headers := [("User-Agent", "ZenBin-Proxy/1.0"),
        ("Content-Type", "application/json")],
      body := none } (by decide)
  exact h.2.2 (by decide)

/-- C6: a response whose declared Content-Length parses above the cap is
rejected with 502 before any body bytes are read (chunk count 0); a
streamed body whose accumulated size exceeds the cap is rejected with
502 after consuming only the chunks read so far (never the whole
stream); a completed read never accumulates more than the cap; and any
successfully relayed response has a body within the cap. -/
theorem C6_response_size_cap :
    (∀ (cfg : ProxyCfg) (or : OraclesM) (req : ProxyReqM) (v : String × String)
        (tr : List FetchCallM) (r : FetchRespM) (s : String) (n : ℤ),
      relayAdmitted cfg or req →
      resolveAndValidate or.parse or.dns4 or.dns6 req.url = .ok v →
      relayLoopOf cfg or req = (tr, .finalResp r) →
      hGet r.headers "content-length" = some s →
      s ≠ "" →
      jsParseIntR 10 s.data = some n →
      (cfg.proxyMaxResponseSize : ℤ) < n →
      handleProxy cfg or req = ((502, .errJson "Response too large"), ⟨tr, 0⟩)) ∧
    (∀ (cfg : ProxyCfg) (or : OraclesM) (req : ProxyReqM) (v : String × String)
        (tr : List FetchCallM) (r : FetchRespM) (chunks : List (List Nat)) (k : Nat),
      relayAdmitted cfg or req →
      resolveAndValidate or.parse or.dns4 or.dns6 req.url = .ok v →
      relayLoopOf cfg or req = (tr, .finalResp r) →
      clTooLarge cfg r = false →
      r.body = some chunks →
      readChunks cfg.proxyMaxResponseSize 0 chunks = (false, k) →
      handleProxy cfg or req = ((502, .errJson "Response too large"), ⟨tr, k⟩) ∧
        k ≤ chunks.length) ∧
    (∀ (cap : Nat) (chunks : List (List Nat)),
      (readChunks cap 0 chunks).1 = true → sumLens chunks ≤ cap) ∧
    (∀ (cfg : ProxyCfg) (or : OraclesM) (req : ProxyReqM) (st : Nat) (p : ProxyRespM)
        (tm : TraceM) (tr : List FetchCallM) (r : FetchRespM) (chunks : List (List Nat)),
      handleProxy cfg or req = ((st, .relay p), tm) →
      relayLoopOf cfg or req = (tr, .finalResp r) →
      r.body = some chunks →
      sumLens chunks ≤ cfg.proxyMaxResponseSize) := by
  refine ⟨?_, ?_, ?_, ?_⟩
  · intro cfg or req v tr r s n hA hV hloop hs hne hn hlt
    rw [handleProxy_admitted cfg or req v hA hV, hloop]
    have hcl : clTooLarge cfg r = true := by
      unfold clTooLarge
      rw [hs]
      dsimp only
      rw [hn]
      simp [hne, hlt]
    unfold relayRespond
    dsimp only
    rw [if_pos hcl]
  · intro cfg or req v tr r chunks k hA hV hloop hcl hb hrd
    constructor
    · rw [handleProxy_admitted cfg or req v hA hV, hloop]
      unfold relayRespond
      dsimp only
      rw [if_neg (by simp [hcl]), hb]
      dsimp only
      rw [hrd]
      rfl
    · have hle := readChunks_consumed_le cfg.proxyMaxResponseSize 0 chunks
      rw [hrd] at hle
      exact hle
  · intro cap chunks h
    exact readChunks_ok_bound cap chunks h
  · intro cfg or req st p tm tr r chunks hh hloop hb
    unfold handleProxy at hh
    split at hh
    · simp at hh
    · split at hh
      · simp at hh
      · split at hh
        · simp at hh
        · rw [hloop] at hh
          unfold relayRespond at hh
          dsimp only at hh
          split at hh
          · simp at hh
          · split at hh
            · rename_i hnone
              rw [hb] at hnone
              exact absurd hnone (by simp)
            · rename_i chunks2 hsome
              rw [hb] at hsome
              injection hsome with hce
              split at hh
              · rename_i hrd1
                subst hce
                exact readChunks_ok_bound _ _ hrd1
              · simp at hh

theorem C6_response_size_cap_witness :
    handleProxy cfgTest oraclesBigCL reqPub =
      ((502, .errJson "Response too large"),
        ⟨[{ url := "http://pub.example/", method := "GET",
            headers := [("User-Agent", "ZenBin-Proxy/1.0")], body := none }], 0⟩) ∧
    handleProxy cfgSmall oraclesBigStream reqPub =
      ((502, .errJson "Response too large"),
        ⟨[{ url := "http://pub.example/", method := "GET",
            headers := [("User-Agent", "ZenBin-Proxy/1.0")], body := none }], 2⟩) := by
  constructor
  · exact C6_response_size_cap.1 cfgTest oraclesBigCL reqPub
      ("pub.example", "93.184.216.34")
      [{ url := "http://pub.example/", method := "GET",
         headers := [("User-Agent", "ZenBin-Proxy/1.0")], body := none }]
      ⟨200, "OK", [("Content-Length", "5000")], some [[1]]⟩
      "5000" 5000 ⟨by decide, by decide⟩ (by decide) (by decide) (by decide)
      (by decide) (by decide) (by decide)
  · exact (C6_response_size_cap.2.1 cfgSmall oraclesBigStream reqPub
      ("pub.example", "93.184.216.34")
      [{ url := "http://pub.example/", method := "GET",
         headers := [("User-Agent", "ZenBin-Proxy/1.0")], body := none }]
      ⟨200, "OK", [], some [[1, 2, 3, 4, 5, 6], [1, 2, 3, 4, 5, 6]]⟩
      [[1, 2, 3, 4, 5, 6], [1, 2, 3, 4, 5, 6]] 2
      ⟨by decide, by decide⟩ (by decide) (by decide) (by decide)
      (by decide) (by decide)).1

/-- C9: the relayed headers are exactly the upstream headers minus those
named set-cookie case-insensitively; a JSON content type with a parsable
body yields the parsed body, with an unparsable body it falls back to
the raw text, and a non-JSON content type always yields the raw text;
and concretely an upstream 200 with Content-Type application/json, a
Set-Cookie header and an unparsable body is relayed with status 200,
the Set-Cookie header stripped and the raw text as body. -/
theorem C9_response_sanitization :
    (∀ (hs : List (String × String)) (kv : String × String),
      kv ∈ sanitizeHeaders hs ↔ kv ∈ hs ∧ lowerStr kv.1 ≠ "set-cookie") ∧
    (∀ (jp : String → Bool) (ct text : String),
      containsSubStr ct "application/json" = true → jp text = true →
      bodyOf jp ct text = .jsonParsed text) ∧
    (∀ (jp : String → Bool) (ct text : String),
      containsSubStr ct "application/json" = true → jp text = false →
      bodyOf jp ct text = .rawText text) ∧
    (∀ (jp : String → Bool) (ct text : String),
      containsSubStr ct "application/json" = false →
      bodyOf jp ct text = .rawText text) ∧
    handleProxy cfgTest oraclesBadJson reqPub =
      ((200, .relay {
          status := 200
          statusText := "OK"
          headers := [("Content-Type", "application/json"), ("X-Test", "1")]
          body := .rawText "no" }),
        ⟨[{ url := "http://pub.example/", method := "GET",
            headers := [("User-Agent", "ZenBin-Proxy/1.0")], body := none }], 1⟩) := by
  refine ⟨?_, ?_, ?_, ?_, by decide⟩
  · intro hs kv
    unfold sanitizeHeaders
    rw [List.mem_filter]
    simp
  · intro jp ct text hct hjp
    unfold bodyOf
    simp [hct, hjp]
  · intro jp ct text hct hjp
    unfold bodyOf
    simp [hct, hjp]
  · intro jp ct text hct
    unfold bodyOf
    simp [hct]

theorem C9_response_sanitization_witness :
    bodyOf (fun _ => false) "application/json" "nope" = .rawText "nope" :=
  C9_response_sanitization.2.2.1 (fun _ => false) "application/json" "nope"
    (by decide) rfl

end ZenBin
